import Mathlib

/-! Chain of Responsibility (`src/Chain_of_Responsibility.cpp`).

A shallow embedding of the handler chain.  Handler objects live in a heap
(a list indexed by address); a `Handler*` is an optional address, `nullptr`
being `none`.  The virtual call `Handle` follows successor pointers, so it is
modelled with fuel: `none` means the call did not return within the fuel
(or reached an address that holds no object).  Every `Handle` invocation
appends one event to a call trace, which says which object was consulted
and which branch of its `Handle` ran.
-/

namespace ChainOfResponsibility

/-- The dynamic type of a handler object: one of the three concrete classes. -/
inductive Kind where
  | Monkey
  | Squirrel
  | Dog
  deriving DecidableEq, Repr

/-- A `Handler*`: `none` is `nullptr`, `some p` the address of an object. -/
abbrev Ptr := Option Nat

/-- An object of a class derived from `AbstractHandler`: its dynamic type and
its one data member `next_handler_`. -/
structure AbstractHandler where
  kind : Kind
  next_handler_ : Ptr
  deriving DecidableEq, Repr

/-- The object store: the object at address `p` is `heap[p]?`. -/
abbrev Heap := List AbstractHandler

/-- One `Handle` invocation on the object at the given address: it either
returned its own text (`produced`) or took the `else` branch and went to
`AbstractHandler::Handle` (`declined`). -/
inductive Event where
  | declined (p : Nat)
  | produced (p : Nat)
  deriving DecidableEq, Repr

/-- What a `Handle` call yields: the trace of invocations it caused, in
order, and the returned string. -/
abbrev Outcome := Option (List Event × String)

/-- The constructor `AbstractHandler()` run for a fresh object of the given
class, as in `std::make_unique<MonkeyHandler>()`: the successor starts as
`nullptr`.  Returns the new heap and the address of the object. -/
def make_unique (heap : Heap) (k : Kind) : Heap × Nat :=
  (heap ++ [{ kind := k, next_handler_ := none }], heap.length)

/-- `AbstractHandler::SetNext`: stores `handler` in `this->next_handler_` and
returns `handler`. -/
def AbstractHandler.SetNext (obj : AbstractHandler) (handler : Ptr) : AbstractHandler × Ptr :=
  ({ obj with next_handler_ := handler }, handler)

/-- The virtual call `this->SetNext(handler)` through a pointer: every
concrete class inherits `AbstractHandler::SetNext`.  The call has no result
when `this` is `nullptr` or holds no object. -/
def Handler.SetNext (heap : Heap) (this : Ptr) (handler : Ptr) : Option (Heap × Ptr) :=
  match this with
  | none => none
  | some p =>
    match heap[p]? with
    | none => none
    | some obj =>
      let r := AbstractHandler.SetNext obj handler
      some (heap.set p r.1, r.2)

/-- `AbstractHandler::Handle`: forwards to the successor through the virtual
call `dispatch` when there is one, and returns the empty string otherwise. -/
def AbstractHandler.Handle (dispatch : Nat → String → Outcome)
    (obj : AbstractHandler) (request : String) : Outcome :=
  match obj.next_handler_ with
  | some next => dispatch next request
  | none => some ([], "")

/-- Prefix a trace with the event of the caller. -/
def logged (e : Event) (o : Outcome) : Outcome :=
  o.map (fun r => (e :: r.1, r.2))

/-- `MonkeyHandler::Handle`. -/
def MonkeyHandler.Handle (dispatch : Nat → String → Outcome) (this : Nat)
    (obj : AbstractHandler) (request : String) : Outcome :=
  if request = "Banana" then
    some ([Event.produced this], "Monkey: I'll eat the " ++ request ++ ".\n")
  else
    logged (Event.declined this) (AbstractHandler.Handle dispatch obj request)

/-- `SquirrelHandler::Handle`. -/
def SquirrelHandler.Handle (dispatch : Nat → String → Outcome) (this : Nat)
    (obj : AbstractHandler) (request : String) : Outcome :=
  if request = "Nut" then
    some ([Event.produced this], "Squirrel: I'll eat the " ++ request ++ ".\n")
  else
    logged (Event.declined this) (AbstractHandler.Handle dispatch obj request)

/-- `DogHandler::Handle`. -/
def DogHandler.Handle (dispatch : Nat → String → Outcome) (this : Nat)
    (obj : AbstractHandler) (request : String) : Outcome :=
  if request = "MeatBall" then
    some ([Event.produced this], "Dog: I'll eat the " ++ request ++ ".\n")
  else
    logged (Event.declined this) (AbstractHandler.Handle dispatch obj request)

/-- The virtual call `handler->Handle(request)` on the object at address
`this`: looks up the dynamic type and runs the override of that class.  A
nested virtual call gets one unit of fuel less. -/
def Handler.Handle (heap : Heap) : Nat → Nat → String → Outcome
  | 0, _, _ => none
  | fuel + 1, this, request =>
    match heap[this]? with
    | none => none
    | some obj =>
      match obj.kind with
      | Kind.Monkey => MonkeyHandler.Handle (Handler.Handle heap fuel) this obj request
      | Kind.Squirrel => SquirrelHandler.Handle (Handler.Handle heap fuel) this obj request
      | Kind.Dog => DogHandler.Handle (Handler.Handle heap fuel) this obj request

/-- The three strings `ClientCode` offers. -/
def ClientCode.food : List String := ["Nut", "Banana", "Cup of coffe"]

/-- One iteration of the loop of `ClientCode`: what it writes to `std::cout`
for the food `f`. -/
def ClientCode.body (heap : Heap) (fuel : Nat) (handler : Nat) (f : String) : Option String :=
  match Handler.Handle heap fuel handler f with
  | none => none
  | some (_, result) =>
    some ("Client: Who wants a  " ++ f ++ "?\n" ++
      (if result ≠ "" then "     +" ++ result
       else "          -" ++ f ++ " was left untouched.\n"))

/-- `ClientCode`: the text written to `std::cout` over the three foods. -/
def ClientCode (heap : Heap) (fuel : Nat) (handler : Nat) : Option String :=
  ClientCode.food.foldlM
    (fun out f => (ClientCode.body heap fuel handler f).map (fun s => out ++ s)) ""

/-- The start of `main`: the three handlers and the fluent linking
`monkey->SetNext(squirrel.get())->SetNext(dog.get())`.  Returns the heap and
the addresses of `monkey`, `squirrel` and `dog`. -/
def main.chain : Option (Heap × Nat × Nat × Nat) :=
  let m := make_unique [] Kind.Monkey
  let s := make_unique m.1 Kind.Squirrel
  let d := make_unique s.1 Kind.Dog
  match Handler.SetNext d.1 (some m.2) (some s.2) with
  | none => none
  | some r1 =>
    match Handler.SetNext r1.1 r1.2 (some d.2) with
    | none => none
    | some r2 => some (r2.1, m.2, s.2, d.2)

/-- `main`: the text written to `std::cout`, the destructors of `dog`,
`squirrel` and `monkey` (run in that order at the end) included. -/
def main (fuel : Nat) : Option String :=
  match main.chain with
  | none => none
  | some (heap, monkey, squirrel, _) =>
    match ClientCode heap fuel monkey, ClientCode heap fuel squirrel with
    | some out1, some out2 =>
      some ("Chain: Monkey > Squirrel > Dog \n\n" ++ out1 ++ "\n" ++
        "Subchain: Squirrel > Dog \n\n" ++ out2 ++
        "~DogHandler\n~AbstractHandler\n" ++
        "~SquirrelHandler\n~AbstractHandler\n" ++
        "~MonkeyHandler\n~AbstractHandler\n")
    | _, _ => none

/-- The construction of `main` with the three classes as parameters: three
fresh handlers `h1`, `h2`, `h3` linked by `h1->SetNext(h2)->SetNext(h3)`. -/
def chainOfThree (k1 k2 k3 : Kind) : Option (Heap × Nat × Nat × Nat) :=
  let a := make_unique [] k1
  let b := make_unique a.1 k2
  let c := make_unique b.1 k3
  match Handler.SetNext c.1 (some a.2) (some b.2) with
  | none => none
  | some r1 =>
    match Handler.SetNext r1.1 r1.2 (some c.2) with
    | none => none
    | some r2 => some (r2.1, a.2, b.2, c.2)

/-- The sub-chain `Squirrel > Dog` built on its own: two fresh handlers and
`squirrel->SetNext(dog)`. -/
def chainSquirrelDog : Option (Heap × Nat × Nat) :=
  let s := make_unique [] Kind.Squirrel
  let d := make_unique s.1 Kind.Dog
  match Handler.SetNext d.1 (some s.2) (some d.2) with
  | none => none
  | some r => some (r.1, s.2, d.2)

/-! ## Vocabulary of the properties -/

/-- The literal a class compares the request with. -/
def Kind.food : Kind → String
  | Kind.Monkey => "Banana"
  | Kind.Squirrel => "Nut"
  | Kind.Dog => "MeatBall"

/-- A class recognises a request when the request equals its literal. -/
def recognises (k : Kind) (request : String) : Prop := request = k.food

instance (k : Kind) (request : String) : Decidable (recognises k request) :=
  inferInstanceAs (Decidable (request = k.food))

/-- The text a class returns for a request it recognises. -/
def ownResult : Kind → String → String
  | Kind.Monkey, request => "Monkey: I'll eat the " ++ request ++ ".\n"
  | Kind.Squirrel, request => "Squirrel: I'll eat the " ++ request ++ ".\n"
  | Kind.Dog, request => "Dog: I'll eat the " ++ request ++ ".\n"

/-- The successor stored in the object at `p`: `none` when `p` holds no
object, `some none` when the successor is `nullptr`. -/
def successor (heap : Heap) (p : Nat) : Option Ptr :=
  heap[p]?.map (fun obj => obj.next_handler_)

/-- The object at `p` exists and its class recognises the request. -/
def recognisesAt (heap : Heap) (p : Nat) (request : String) : Prop :=
  match heap[p]? with
  | some obj => recognises obj.kind request
  | none => False

instance (heap : Heap) (p : Nat) (request : String) :
    Decidable (recognisesAt heap p request) := by
  unfold recognisesAt
  cases heap[p]? <;> infer_instance

/-- Handler `q` is `p` itself or is reached from `p` along successor pointers. -/
inductive Reach (heap : Heap) : Nat → Nat → Prop where
  | here (p : Nat) : Reach heap p p
  | next {p q t : Nat} : successor heap p = some (some q) → Reach heap q t → Reach heap p t

/-- Every successor pointer stored in the heap is `nullptr` or the address of
an object of the heap. -/
def NoDangling (heap : Heap) : Prop :=
  ∀ p q, successor heap p = some (some q) → q < heap.length

/-- The successor references have no cycle: no handler is reached again from
its own successor. -/
def Acyclic (heap : Heap) : Prop :=
  ∀ p q, successor heap p = some (some q) → ¬ Reach heap q p

/-- The event of a handler that returned its own text. -/
def Event.isProduced : Event → Bool
  | Event.produced _ => true
  | Event.declined _ => false

/-- The address of the handler an event is about. -/
def Event.addr : Event → Nat
  | Event.declined p => p
  | Event.produced p => p

/-- A trace is a traversal from `h` for request `r`: it starts at `h`, every
handler but the last declines a request it does not recognise and hands over
to its successor, and the last one either recognises the request and produces,
or declines it and has a null successor. -/
def Traversal (heap : Heap) (r : String) : Nat → List Event → Prop
  | _, [] => False
  | h, [e] =>
    (e = Event.produced h ∧ recognisesAt heap h r) ∨
    (e = Event.declined h ∧ ¬ recognisesAt heap h r ∧ successor heap h = some none)
  | h, e :: e1 :: rest =>
    e = Event.declined h ∧ ¬ recognisesAt heap h r ∧
    successor heap h = some (some e1.addr) ∧ Traversal heap r e1.addr (e1 :: rest)

/-- Handlers of the given classes, freshly constructed one after the other:
none has a successor yet. -/
def fresh (ks : List Kind) : Heap :=
  ks.foldl (fun heap k => (make_unique heap k).1) []

/-- A sequence of calls `h->SetNext(s)`, given as pairs `(h, s)`, run in
order. -/
def setNextAll (heap : Heap) : List (Nat × Ptr) → Option Heap
  | [] => some heap
  | (h, s) :: rest =>
    match Handler.SetNext heap (some h) s with
    | none => none
    | some r => setNextAll r.1 rest

/-- No call `h->SetNext(s)` of the sequence is made at a moment when `h` is
reached from `s` (so, in particular, never `h->SetNext(h)`). -/
def Guarded : Heap → List (Nat × Ptr) → Prop
  | _, [] => True
  | heap, (h, s) :: rest =>
    (∀ q, s = some q → ¬ Reach heap q h) ∧
    match Handler.SetNext heap (some h) s with
    | none => True
    | some r => Guarded r.1 rest

end ChainOfResponsibility

/-! Strategy (`src/Strategy.cpp`).

A `std::string` is a `String` and a `char` is a `Char` of code below 256.
Whether plain `char` is signed is left to the platform, so it is a parameter
`char_signed`: `operator<` of `char` compares the values `char_value`, which
for a signed `char` are negative from code 128 on.  `std::sort` is modelled by
a sort of the character list in that order (a total order has one sorted
arrangement, so the algorithm does not matter).  The loop counter of
`ConcreteStrategyB` is an `int`: its largest value `INT_MAX` is a parameter,
and stepping past it has no result.
-/

namespace StrategyPattern

/-- The value of a `char` as `operator<` compares it: the code itself, or,
where plain `char` is signed, `code - 256` for the codes from 128 on. -/
def char_value (char_signed : Bool) (c : Char) : Int :=
  if char_signed = true ∧ 128 ≤ c.toNat then (c.toNat : Int) - 256 else (c.toNat : Int)

/-- The order `std::sort` leaves two neighbours in: `b < a` is false. -/
def char_le (char_signed : Bool) (a b : Char) : Prop :=
  char_value char_signed a ≤ char_value char_signed b

instance (char_signed : Bool) : DecidableRel (char_le char_signed) :=
  fun a b => inferInstanceAs (Decidable (char_value char_signed a ≤ char_value char_signed b))

/-- `std::sort(std::begin(s), std::end(s))`: the characters of `s` in
non-decreasing order of `char`. -/
def std_sort (char_signed : Bool) (s : String) : String :=
  ⟨s.data.insertionSort (char_le char_signed)⟩

/-- `std::swap(s[i], s[j])`. -/
def std_swap (s : String) (i j : Nat) : String :=
  match s.data[i]?, s.data[j]? with
  | some a, some b => ⟨(s.data.set i b).set j a⟩
  | _, _ => s

/-- The `std::for_each` of both strategies: `result += letter` for every
string of `data`, in order, starting from the empty `result`. -/
def for_each (data : List String) : String :=
  data.foldl (fun result letter => result ++ letter) ""

/-- `ConcreteStrategyA::DoAlforithm`. -/
def ConcreteStrategyA.DoAlforithm (char_signed : Bool) (data : List String) : String :=
  std_sort char_signed (for_each data)

/-- The loop `for (int i = 0; i < result.size() / 2; i++)` of
`ConcreteStrategyB::DoAlforithm`, from the counter value `i` on. -/
def ConcreteStrategyB.loop (INT_MAX : Nat) (result : String) (i : Nat) : Option String :=
  if i < result.length / 2 then
    if i + 1 ≤ INT_MAX then
      ConcreteStrategyB.loop INT_MAX (std_swap result i (result.length - i - 1)) (i + 1)
    else none
  else some result
termination_by result.length / 2 - i
decreasing_by
  have hlen : (std_swap result i (result.length - i - 1)).length = result.length := by
    unfold std_swap
    split
    · show ((result.data.set i _).set (result.length - i - 1) _).length = result.data.length
      rw [List.length_set, List.length_set]
    · rfl
  rw [hlen]
  omega

/-- `ConcreteStrategyB::DoAlforithm`. -/
def ConcreteStrategyB.DoAlforithm (INT_MAX : Nat) (char_signed : Bool)
    (data : List String) : Option String :=
  ConcreteStrategyB.loop INT_MAX (std_sort char_signed (for_each data)) 0

/-- The dynamic type of a `Strategy` object. -/
inductive StrategyKind where
  | ConcreteStrategyA
  | ConcreteStrategyB
  deriving DecidableEq, Repr

/-- The virtual call `strategy->DoAlforithm(data)`. -/
def Strategy.DoAlforithm (INT_MAX : Nat) (char_signed : Bool) (k : StrategyKind)
    (data : List String) : Option String :=
  match k with
  | StrategyKind.ConcreteStrategyA => some (ConcreteStrategyA.DoAlforithm char_signed data)
  | StrategyKind.ConcreteStrategyB => ConcreteStrategyB.DoAlforithm INT_MAX char_signed data

/-- A `Context`: its `strategy_` pointer, `none` being `nullptr`. -/
structure Context where
  strategy_ : Option StrategyKind
  deriving DecidableEq, Repr

/-- `Context::DoSomeBusinessLogic`: the text written to `std::cout`. -/
def Context.DoSomeBusinessLogic (INT_MAX : Nat) (char_signed : Bool) (this : Context) :
    Option String :=
  match this.strategy_ with
  | none => none
  | some k =>
    match Strategy.DoAlforithm INT_MAX char_signed k ["a", "e", "c", "b", "d"] with
    | none => none
    | some result =>
      some ("Context: Sorting data using the strategy (not sure how it'll do it)\n" ++
        result ++ "\n")

end StrategyPattern

/-! Adapter (`src/Adapter.cpp`). -/

namespace AdapterPattern

/-- `Target::Request`. -/
def Target.Request : String :=
  "Target: The default target's behavior."

/-- `Adaptee::SpecificRequest`. -/
def Adaptee.SpecificRequest : String :=
  ".eetpadA eth of roivaheb laicepS"

/-- `std::reverse(s.begin(), s.end())`. -/
def std_reverse (s : String) : String :=
  ⟨s.data.reverse⟩

/-- `Adapter::Request`. -/
def Adapter.Request : String :=
  let to_reverse := Adaptee.SpecificRequest
  let to_reverse := std_reverse to_reverse
  "Adapter: (TRANSLATED) " ++ to_reverse

/-- The dynamic type behind a `Target*`. -/
inductive TargetKind where
  | Target
  | Adapter
  deriving DecidableEq, Repr

/-- `ClientCode`: writes `target->Request()`, a virtual call. -/
def ClientCode (target : TargetKind) : String :=
  match target with
  | TargetKind.Target => Target.Request
  | TargetKind.Adapter => Adapter.Request

/-- `main`: the text written to `std::cout`. -/
def main : String :=
  "Client: I can work just fine with the Target objects:\n" ++
  ClientCode TargetKind.Target ++
  "\n" ++
  "Client: The Adaptee class has a weird interface.See, I don't understand it:\n" ++
  "\n\n" ++
  "Client: But I can work it via the Adapter:\n" ++
  ClientCode TargetKind.Adapter ++
  "\n"

end AdapterPattern

/-! Mediator (`src/Mediator.cpp`).

Components and mediators live in a world of two object stores.  `Notify` and
the component operations call each other, so the virtual call `Notify` takes
fuel.  An operation yields the component operations performed, in order, and
the text written to `std::cout`.
-/

namespace MediatorPattern

/-- The class of a component object. -/
inductive ComponentKind where
  | Component1
  | Component2
  deriving DecidableEq, Repr

/-- A component: its class and the member `mediator_` of `BaseComponent`
(`none` is `nullptr`). -/
structure BaseComponent where
  kind : ComponentKind
  mediator_ : Option Nat
  deriving DecidableEq, Repr

/-- A `ConcreteMediator`: the addresses in `component1_` and `component2_`. -/
structure ConcreteMediator where
  component1_ : Nat
  component2_ : Nat
  deriving DecidableEq, Repr

/-- The object stores. -/
structure World where
  components : List BaseComponent
  mediators : List ConcreteMediator
  deriving DecidableEq, Repr

/-- A component operation. -/
inductive Op where
  | A
  | B
  | C
  | D
  deriving DecidableEq, Repr

/-- What a call yields: the operations performed and the text written. -/
abbrev Outcome := Option (List Op × String)

/-- The statement `std::cout << text`. -/
def say (text : String) : Outcome := some ([], text)

/-- Two statements one after the other. -/
def andThen (a b : Outcome) : Outcome :=
  match a, b with
  | some x, some y => some (x.1 ++ y.1, x.2 ++ y.2)
  | _, _ => none

/-- `BaseComponent::set_mediator`. -/
def BaseComponent.set_mediator (obj : BaseComponent) (mediator : Option Nat) : BaseComponent :=
  { obj with mediator_ := mediator }

/-- `this->mediator_->Notify(this, event)` from a component. -/
def BaseComponent.notify (notify : Nat → Nat → String → Outcome) (this : Nat)
    (obj : BaseComponent) (event : String) : Outcome :=
  match obj.mediator_ with
  | none => none
  | some m => notify m this event

/-- `Component1::DoA`. -/
def Component1.DoA (notify : Nat → Nat → String → Outcome) (this : Nat)
    (obj : BaseComponent) : Outcome :=
  andThen (some ([Op.A], "Component 1 does A.\n")) (obj.notify notify this "A")

/-- `Component1::DoB`. -/
def Component1.DoB (notify : Nat → Nat → String → Outcome) (this : Nat)
    (obj : BaseComponent) : Outcome :=
  andThen (some ([Op.B], "Component 1 does B.\n")) (obj.notify notify this "B")

/-- `Component2::DoC`. -/
def Component2.DoC (notify : Nat → Nat → String → Outcome) (this : Nat)
    (obj : BaseComponent) : Outcome :=
  andThen (some ([Op.C], "Component 2 does C.\n")) (obj.notify notify this "C")

/-- `Component2::DoD`. -/
def Component2.DoD (notify : Nat → Nat → String → Outcome) (this : Nat)
    (obj : BaseComponent) : Outcome :=
  andThen (some ([Op.D], "Component 2 does D.\n")) (obj.notify notify this "D")

/-- A member call through a `Component1*` or `Component2*`: the pointer has to
hold an object of that class. -/
def call (w : World) (k : ComponentKind) (method : Nat → BaseComponent → Outcome)
    (c : Nat) : Outcome :=
  match w.components[c]? with
  | none => none
  | some obj => if obj.kind = k then method c obj else none

/-- `ConcreteMediator::Notify`, with the calls `component1_->DoB()` and
`component2_->DoC()` given as `doB` and `doC`. -/
def ConcreteMediator.Notify (doB doC : Nat → Outcome) (this : ConcreteMediator)
    (_sender : Nat) (event : String) : Outcome :=
  andThen
    (if event = "A" then
      andThen (say "Mediator react on A and triggers following operations:\n")
        (doC this.component2_)
     else say "")
    (if event = "D" then
      andThen (say "Mediator react on D and triggers following operations:\n")
        (andThen (doB this.component1_) (doC this.component2_))
     else say "")

/-- The virtual call `mediator->Notify(sender, event)` on the mediator at
address `m`.  The component operations it triggers notify with one unit of
fuel less. -/
def Mediator.Notify (w : World) : Nat → Nat → Nat → String → Outcome
  | 0, _, _, _ => none
  | fuel + 1, m, sender, event =>
    match w.mediators[m]? with
    | none => none
    | some med =>
      ConcreteMediator.Notify
        (call w ComponentKind.Component1 (Component1.DoB (Mediator.Notify w fuel)))
        (call w ComponentKind.Component2 (Component2.DoC (Mediator.Notify w fuel)))
        med sender event

/-- `c->DoA()` on the component at address `c`. -/
def DoA (w : World) (fuel : Nat) (c : Nat) : Outcome :=
  call w ComponentKind.Component1 (Component1.DoA (Mediator.Notify w fuel)) c

/-- `c->DoB()` on the component at address `c`. -/
def DoB (w : World) (fuel : Nat) (c : Nat) : Outcome :=
  call w ComponentKind.Component1 (Component1.DoB (Mediator.Notify w fuel)) c

/-- `c->DoC()` on the component at address `c`. -/
def DoC (w : World) (fuel : Nat) (c : Nat) : Outcome :=
  call w ComponentKind.Component2 (Component2.DoC (Mediator.Notify w fuel)) c

/-- `c->DoD()` on the component at address `c`. -/
def DoD (w : World) (fuel : Nat) (c : Nat) : Outcome :=
  call w ComponentKind.Component2 (Component2.DoD (Mediator.Notify w fuel)) c

/-- `std::make_unique<Component1>()` or `std::make_unique<Component2>()`: a
new component with `mediator_` null.  Returns the world and the address. -/
def make_component (w : World) (k : ComponentKind) : World × Nat :=
  ({ w with components := w.components ++ [{ kind := k, mediator_ := none }] },
    w.components.length)

/-- `std::make_unique<ConcreteMediator>(c1, c2)`: the constructor stores both
pointers and calls `set_mediator(this)` on both components. -/
def make_mediator (w : World) (c1 c2 : Nat) : Option (World × Nat) :=
  let this := w.mediators.length
  match w.components[c1]? with
  | none => none
  | some o1 =>
    let comps1 := w.components.set c1 (o1.set_mediator (some this))
    match comps1[c2]? with
    | none => none
    | some o2 =>
      let comps2 := comps1.set c2 (o2.set_mediator (some this))
      some ({ components := comps2,
              mediators := w.mediators ++ [{ component1_ := c1, component2_ := c2 }] }, this)

/-- The wiring at the start of `ClientCode`: `c1`, `c2` and the mediator.
Returns the world and the addresses of `c1`, `c2` and the mediator. -/
def ClientCode.wire : Option (World × Nat × Nat × Nat) :=
  let a := make_component { components := [], mediators := [] } ComponentKind.Component1
  let b := make_component a.1 ComponentKind.Component2
  match make_mediator b.1 a.2 b.2 with
  | none => none
  | some r => some (r.1, a.2, b.2, r.2)

/-- `ClientCode`: the text written to `std::cout` by its statements, the
constructors included.  The destructors that run when it returns are left
out. -/
def ClientCode (fuel : Nat) : Option String :=
  match ClientCode.wire with
  | none => none
  | some (w, c1, c2, _) =>
    match DoA w fuel c1, DoD w fuel c2 with
    | some x, some y =>
      some ("~Component1\n" ++ "~Component2\n" ++ "ConcreteMediator\n" ++
        "Client triggers operation A.\n" ++ x.2 ++ "\n" ++
        "Client triggers operation D.\n" ++ y.2)
    | _, _ => none

end MediatorPattern

namespace ChainOfResponsibility

/-! ## One step of the virtual call -/

theorem Handle_step (heap : Heap) (fuel this : Nat) (request : String) (obj : AbstractHandler)
    (h : heap[this]? = some obj) :
    Handler.Handle heap (fuel + 1) this request =
      if recognises obj.kind request then
        some ([Event.produced this], ownResult obj.kind request)
      else
        logged (Event.declined this)
          (match obj.next_handler_ with
           | some q => Handler.Handle heap fuel q request
           | none => some ([], "")) := by
  rcases obj with ⟨k, nx⟩
  cases k <;>
    simp only [Handler.Handle, h, MonkeyHandler.Handle, SquirrelHandler.Handle,
      DogHandler.Handle, AbstractHandler.Handle, recognises, Kind.food, ownResult]

theorem Handle_produced (heap : Heap) (fuel this : Nat) (request : String)
    (obj : AbstractHandler) (h : heap[this]? = some obj) (hr : recognises obj.kind request) :
    Handler.Handle heap (fuel + 1) this request =
      some ([Event.produced this], ownResult obj.kind request) := by
  rw [Handle_step heap fuel this request obj h, if_pos hr]

theorem Handle_forward (heap : Heap) (fuel this q : Nat) (request : String)
    (obj : AbstractHandler) (h : heap[this]? = some obj) (hr : ¬ recognises obj.kind request)
    (hq : obj.next_handler_ = some q) :
    Handler.Handle heap (fuel + 1) this request =
      logged (Event.declined this) (Handler.Handle heap fuel q request) := by
  rw [Handle_step heap fuel this request obj h, if_neg hr, hq]

theorem Handle_unhandled (heap : Heap) (fuel this : Nat) (request : String)
    (obj : AbstractHandler) (h : heap[this]? = some obj) (hr : ¬ recognises obj.kind request)
    (hq : obj.next_handler_ = none) :
    Handler.Handle heap (fuel + 1) this request = some ([Event.declined this], "") := by
  rw [Handle_step heap fuel this request obj h, if_neg hr, hq]; rfl

theorem Handle_unallocated (heap : Heap) (fuel this : Nat) (request : String)
    (h : heap[this]? = none) : Handler.Handle heap fuel this request = none := by
  cases fuel with
  | zero => rfl
  | succ n => simp only [Handler.Handle, h]

/-- What a returning call did: the three ways through an override. -/
theorem Handle_inv (heap : Heap) (fuel this : Nat) (request : String)
    (trace : List Event) (v : String)
    (h : Handler.Handle heap (fuel + 1) this request = some (trace, v)) :
    ∃ obj, heap[this]? = some obj ∧
      ((recognises obj.kind request ∧ trace = [Event.produced this] ∧
          v = ownResult obj.kind request) ∨
       (¬ recognises obj.kind request ∧ obj.next_handler_ = none ∧
          trace = [Event.declined this] ∧ v = "") ∨
       (¬ recognises obj.kind request ∧ ∃ q t, obj.next_handler_ = some q ∧
          Handler.Handle heap fuel q request = some (t, v) ∧
          trace = Event.declined this :: t)) := by
  cases hobj : heap[this]? with
  | none => rw [Handle_unallocated heap _ this request hobj] at h; cases h
  | some obj =>
    refine ⟨obj, rfl, ?_⟩
    by_cases hr : recognises obj.kind request
    · rw [Handle_produced heap fuel this request obj hobj hr] at h
      obtain ⟨h1, h2⟩ := Prod.mk.inj (Option.some.inj h)
      exact Or.inl ⟨hr, h1.symm, h2.symm⟩
    · cases hn : obj.next_handler_ with
      | none =>
        rw [Handle_unhandled heap fuel this request obj hobj hr hn] at h
        obtain ⟨h1, h2⟩ := Prod.mk.inj (Option.some.inj h)
        exact Or.inr (Or.inl ⟨hr, rfl, h1.symm, h2.symm⟩)
      | some q =>
        rw [Handle_forward heap fuel this q request obj hobj hr hn] at h
        cases hq : Handler.Handle heap fuel q request with
        | none => rw [hq] at h; cases h
        | some o =>
          rw [hq] at h
          obtain ⟨h1, h2⟩ := Prod.mk.inj (Option.some.inj h)
          refine Or.inr (Or.inr ⟨hr, q, o.1, rfl, ?_, h1.symm⟩)
          rw [← h2]
          exact hq

theorem food_injective (k1 k2 : Kind) (h : k1.food = k2.food) : k1 = k2 := by
  cases k1 <;> cases k2 <;> first | rfl | exact absurd h (by decide)

theorem Handle_countP_produced (heap : Heap) (request : String) :
    ∀ (fuel this : Nat) (trace : List Event) (v : String),
      Handler.Handle heap fuel this request = some (trace, v) →
      trace.countP Event.isProduced ≤ 1 := by
  intro fuel
  induction fuel with
  | zero => intro this trace v h; cases h
  | succ n ih =>
    intro this trace v h
    obtain ⟨obj, -, h1 | h2 | h3⟩ := Handle_inv heap n this request trace v h
    · rw [h1.2.1]; simp [Event.isProduced]
    · rw [h2.2.2.1]; simp [Event.isProduced]
    · obtain ⟨-, q, t, -, hq, ht⟩ := h3
      rw [ht, List.countP_cons_of_neg]
      · exact ih q t v hq
      · simp [Event.isProduced]

/-! ## SetNext on the heap -/

theorem SetNext_eq (heap : Heap) (h : Nat) (handler : Ptr) (obj : AbstractHandler)
    (hh : heap[h]? = some obj) :
    Handler.SetNext heap (some h) handler =
      some (heap.set h { obj with next_handler_ := handler }, handler) := by
  simp [Handler.SetNext, hh, AbstractHandler.SetNext]

theorem getElem?_set_same (heap : Heap) (h : Nat) (obj new : AbstractHandler)
    (hh : heap[h]? = some obj) : (heap.set h new)[h]? = some new := by
  have hlt : h < heap.length := by
    rcases List.getElem?_eq_some_iff.mp hh with ⟨hl, _⟩
    exact hl
  exact List.getElem?_set_self hlt

/-! ## The contract of `Handle` and `SetNext` -/

/-- C1: each concrete handler, called with the string it recognises, returns
its own text and does not forward.  The method returns the same value for
every successor pointer stored in the object and every behaviour `dispatch`
of the successor (also one that never returns), and the virtual call returns
with one unit of fuel and a trace that holds this one invocation only. -/
theorem C1_recognised_request_not_forwarded (heap : Heap) (fuel this : Nat)
    (obj : AbstractHandler) (hobj : heap[this]? = some obj) :
    (∀ (dispatch : Nat → String → Outcome) (o : AbstractHandler),
      MonkeyHandler.Handle dispatch this o "Banana" =
          some ([Event.produced this], "Monkey: I'll eat the Banana.\n") ∧
      SquirrelHandler.Handle dispatch this o "Nut" =
          some ([Event.produced this], "Squirrel: I'll eat the Nut.\n") ∧
      DogHandler.Handle dispatch this o "MeatBall" =
          some ([Event.produced this], "Dog: I'll eat the MeatBall.\n")) ∧
    (obj.kind = Kind.Monkey → Handler.Handle heap (fuel + 1) this "Banana" =
        some ([Event.produced this], "Monkey: I'll eat the Banana.\n")) ∧
    (obj.kind = Kind.Squirrel → Handler.Handle heap (fuel + 1) this "Nut" =
        some ([Event.produced this], "Squirrel: I'll eat the Nut.\n")) ∧
    (obj.kind = Kind.Dog → Handler.Handle heap (fuel + 1) this "MeatBall" =
        some ([Event.produced this], "Dog: I'll eat the MeatBall.\n")) := by
  refine ⟨fun dispatch o => ⟨rfl, rfl, rfl⟩, ?_, ?_, ?_⟩ <;> intro hk
  · have hr : recognises obj.kind "Banana" := by rw [hk]; rfl
    rw [Handle_produced heap fuel this "Banana" obj hobj hr, hk]; rfl
  · have hr : recognises obj.kind "Nut" := by rw [hk]; rfl
    rw [Handle_produced heap fuel this "Nut" obj hobj hr, hk]; rfl
  · have hr : recognises obj.kind "MeatBall" := by rw [hk]; rfl
    rw [Handle_produced heap fuel this "MeatBall" obj hobj hr, hk]; rfl

theorem C1_recognised_request_not_forwarded_witness :
    Handler.Handle [⟨Kind.Squirrel, some 1⟩, ⟨Kind.Monkey, some 0⟩] 1 1 "Banana" =
      some ([Event.produced 1], "Monkey: I'll eat the Banana.\n") :=
  (C1_recognised_request_not_forwarded [⟨Kind.Squirrel, some 1⟩, ⟨Kind.Monkey, some 0⟩]
    0 1 ⟨Kind.Monkey, some 0⟩ rfl).2.1 rfl

/-- C2: a concrete handler that does not recognise the request forwards the
same request to its successor and returns what the successor returns (its
trace is the successor's trace after its own `declined` event, and it does not
return when the successor does not); with no successor it returns the empty
string. -/
theorem C2_unrecognised_request_forwarded (heap : Heap) (fuel this : Nat) (request : String)
    (obj : AbstractHandler) (hobj : heap[this]? = some obj)
    (hr : ¬ recognises obj.kind request) :
    (∀ s, obj.next_handler_ = some s →
      Handler.Handle heap (fuel + 1) this request =
        (Handler.Handle heap fuel s request).map
          (fun r => (Event.declined this :: r.1, r.2))) ∧
    (obj.next_handler_ = none →
      Handler.Handle heap (fuel + 1) this request = some ([Event.declined this], "")) := by
  constructor
  · intro s hs
    exact Handle_forward heap fuel this s request obj hobj hr hs
  · intro hn
    exact Handle_unhandled heap fuel this request obj hobj hr hn

theorem C2_unrecognised_request_forwarded_witness :
    Handler.Handle [⟨Kind.Monkey, some 1⟩, ⟨Kind.Dog, none⟩] 2 0 "MeatBall" =
        (Handler.Handle [⟨Kind.Monkey, some 1⟩, ⟨Kind.Dog, none⟩] 1 1 "MeatBall").map
          (fun r => (Event.declined 0 :: r.1, r.2)) ∧
    Handler.Handle [⟨Kind.Monkey, some 1⟩, ⟨Kind.Dog, none⟩] 2 1 "Tea" =
        some ([Event.declined 1], "") :=
  ⟨(C2_unrecognised_request_forwarded [⟨Kind.Monkey, some 1⟩, ⟨Kind.Dog, none⟩] 1 0
      "MeatBall" ⟨Kind.Monkey, some 1⟩ rfl (by decide)).1 1 rfl,
   (C2_unrecognised_request_forwarded [⟨Kind.Monkey, some 1⟩, ⟨Kind.Dog, none⟩] 1 1
      "Tea" ⟨Kind.Dog, none⟩ rfl (by decide)).2 rfl⟩

/-- C3: `h->SetNext(s)` stores `s` as the successor of `h`, returns `s`, and
changes no other object and no dynamic type; so for three different handlers
`a`, `b`, `c` the fluent `a->SetNext(b)->SetNext(c)` returns `c` and leaves the
successor of `a` equal to `b`, the successor of `b` equal to `c`, and the
object `c` as it was. -/
theorem C3_SetNext_returns_successor (heap : Heap) :
    (∀ (h : Nat) (s : Ptr) (obj : AbstractHandler), heap[h]? = some obj →
      ∃ heap1, Handler.SetNext heap (some h) s = some (heap1, s) ∧
        heap1[h]? = some { kind := obj.kind, next_handler_ := s } ∧
        ∀ p, p ≠ h → heap1[p]? = heap[p]?) ∧
    (∀ (a b c : Nat) (oa ob oc : AbstractHandler),
      heap[a]? = some oa → heap[b]? = some ob → heap[c]? = some oc →
      a ≠ b → c ≠ a → c ≠ b →
      ∃ heap2,
        (Handler.SetNext heap (some a) (some b)).bind
            (fun r => Handler.SetNext r.1 r.2 (some c)) = some (heap2, some c) ∧
        heap2[a]? = some { kind := oa.kind, next_handler_ := some b } ∧
        heap2[b]? = some { kind := ob.kind, next_handler_ := some c } ∧
        heap2[c]? = some oc ∧
        ∀ p, p ≠ a → p ≠ b → heap2[p]? = heap[p]?) := by
  constructor
  · intro h s obj hh
    refine ⟨heap.set h { obj with next_handler_ := s }, SetNext_eq heap h s obj hh,
      getElem?_set_same heap h obj _ hh, ?_⟩
    intro p hp
    exact List.getElem?_set_ne (Ne.symm hp)
  · intro a b c oa ob oc ha hb hc hab hca hcb
    have hb1 : (heap.set a { oa with next_handler_ := some b })[b]? = some ob := by
      rw [List.getElem?_set_ne hab]; exact hb
    refine ⟨(heap.set a { oa with next_handler_ := some b }).set b
        { ob with next_handler_ := some c }, ?_, ?_, ?_, ?_, ?_⟩
    · rw [SetNext_eq heap a (some b) oa ha]
      exact SetNext_eq _ b (some c) ob hb1
    · rw [List.getElem?_set_ne (Ne.symm hab)]
      exact getElem?_set_same heap a oa _ ha
    · exact getElem?_set_same _ b ob _ hb1
    · rw [List.getElem?_set_ne (Ne.symm hcb), List.getElem?_set_ne (Ne.symm hca)]
      exact hc
    · intro p hpa hpb
      rw [List.getElem?_set_ne (Ne.symm hpb), List.getElem?_set_ne (Ne.symm hpa)]

theorem C3_SetNext_returns_successor_witness :
    ∃ heap2,
      (Handler.SetNext [⟨Kind.Monkey, none⟩, ⟨Kind.Squirrel, none⟩, ⟨Kind.Dog, none⟩]
          (some 0) (some 1)).bind
        (fun r => Handler.SetNext r.1 r.2 (some 2)) = some (heap2, some 2) ∧
      heap2[0]? = some { kind := Kind.Monkey, next_handler_ := some 1 } ∧
      heap2[1]? = some { kind := Kind.Squirrel, next_handler_ := some 2 } ∧
      heap2[2]? = some ⟨Kind.Dog, none⟩ ∧
      ∀ p, p ≠ 0 → p ≠ 1 →
        heap2[p]? = [⟨Kind.Monkey, none⟩, ⟨Kind.Squirrel, none⟩, ⟨Kind.Dog, none⟩][p]? :=
  (C3_SetNext_returns_successor
      [⟨Kind.Monkey, none⟩, ⟨Kind.Squirrel, none⟩, ⟨Kind.Dog, none⟩]).2
    0 1 2 ⟨Kind.Monkey, none⟩ ⟨Kind.Squirrel, none⟩ ⟨Kind.Dog, none⟩ rfl rfl rfl
    (by decide) (by decide) (by decide)

/-- C4: `SetNext` is last-write-wins.  `h->SetNext(a)` followed by
`h->SetNext(b)` gives the same heap and the same return value as
`h->SetNext(b)` alone, whatever `a` is; and in the heap after the two calls a
request that `h` does not recognise is forwarded to `b`: `h->Handle(r)` returns
what `b->Handle(r)` returns. -/
theorem C4_SetNext_last_write_wins (heap : Heap) (h : Nat) (a : Ptr) (b : Nat)
    (obj : AbstractHandler) (hh : heap[h]? = some obj) :
    (Handler.SetNext heap (some h) a).bind
        (fun r => Handler.SetNext r.1 (some h) (some b)) =
      Handler.SetNext heap (some h) (some b) ∧
    ∃ heap2,
      (Handler.SetNext heap (some h) a).bind
          (fun r => Handler.SetNext r.1 (some h) (some b)) = some (heap2, some b) ∧
      ∀ (fuel : Nat) (r : String), ¬ recognises obj.kind r →
        Handler.Handle heap2 (fuel + 1) h r =
          (Handler.Handle heap2 fuel b r).map
            (fun o => (Event.declined h :: o.1, o.2)) := by
  have h1 : (heap.set h { obj with next_handler_ := a })[h]? =
      some { obj with next_handler_ := a } := getElem?_set_same heap h obj _ hh
  have hseq : (Handler.SetNext heap (some h) a).bind
        (fun r => Handler.SetNext r.1 (some h) (some b)) =
      some (heap.set h { obj with next_handler_ := some b }, some b) := by
    rw [SetNext_eq heap h a obj hh]
    show Handler.SetNext (heap.set h { obj with next_handler_ := a }) (some h) (some b) = _
    rw [SetNext_eq _ h (some b) _ h1, List.set_set]
  refine ⟨?_, heap.set h { obj with next_handler_ := some b }, hseq, ?_⟩
  · rw [hseq, SetNext_eq heap h (some b) obj hh]
  · intro fuel r hr
    exact Handle_forward _ fuel h b r { obj with next_handler_ := some b }
      (getElem?_set_same heap h obj _ hh) hr rfl

theorem C4_SetNext_last_write_wins_witness :
    (Handler.SetNext [⟨Kind.Monkey, none⟩, ⟨Kind.Squirrel, none⟩, ⟨Kind.Dog, none⟩]
        (some 0) (some 1)).bind (fun r => Handler.SetNext r.1 (some 0) (some 2)) =
      Handler.SetNext [⟨Kind.Monkey, none⟩, ⟨Kind.Squirrel, none⟩, ⟨Kind.Dog, none⟩]
        (some 0) (some 2) :=
  (C4_SetNext_last_write_wins [⟨Kind.Monkey, none⟩, ⟨Kind.Squirrel, none⟩, ⟨Kind.Dog, none⟩]
    0 (some 1) 2 ⟨Kind.Monkey, none⟩ rfl).1

/-! ## The reference chain of `main` -/

/-- C5, as stated, fails on the chain of `main`: the head is the monkey, which
does not recognise "Nut", the second handler does not recognise "Banana", and
"Banana" sent to the head is handled by the head itself, with no handler
declining first. -/
theorem C5_counterexample :
    ∃ heap m s d, main.chain = some (heap, m, s, d) ∧
      successor heap m = some (some s) ∧ successor heap s = some (some d) ∧
      successor heap d = some none ∧
      ¬ recognisesAt heap m "Nut" ∧ ¬ recognisesAt heap s "Banana" ∧
      Handler.Handle heap 3 m "Banana" =
        some ([Event.produced m], "Monkey: I'll eat the Banana.\n") ∧
      ¬ ∃ v, Handler.Handle heap 3 m "Banana" =
        some ([Event.declined m, Event.produced s], v) := by
  refine ⟨[⟨Kind.Monkey, some 1⟩, ⟨Kind.Squirrel, some 2⟩, ⟨Kind.Dog, none⟩], 0, 1, 2,
    rfl, rfl, rfl, rfl, by decide, by decide, rfl, ?_⟩
  rintro ⟨v, hv⟩
  have h : Handler.Handle [⟨Kind.Monkey, some 1⟩, ⟨Kind.Squirrel, some 2⟩, ⟨Kind.Dog, none⟩]
      3 0 "Banana" = some ([Event.produced 0], "Monkey: I'll eat the Banana.\n") := rfl
  rw [h] at hv
  simp at hv

/-- C5, amended: in the chain of `main` (head `monkey`, then `squirrel`, then
`dog`, then `nullptr`) the first, second and third handlers recognise "Banana",
"Nut" and "MeatBall"; "Banana" sent to the head is handled by the first
handler, and "Nut" sent to the head is handled by the second handler after the
first declines it. -/
theorem C5_reference_chain_order :
    ∃ heap m s d, main.chain = some (heap, m, s, d) ∧
      successor heap m = some (some s) ∧ successor heap s = some (some d) ∧
      successor heap d = some none ∧
      recognisesAt heap m "Banana" ∧ recognisesAt heap s "Nut" ∧
      recognisesAt heap d "MeatBall" ∧
      (∀ fuel, Handler.Handle heap (fuel + 1) m "Banana" =
        some ([Event.produced m], "Monkey: I'll eat the Banana.\n")) ∧
      (∀ fuel, Handler.Handle heap (fuel + 2) m "Nut" =
        some ([Event.declined m, Event.produced s], "Squirrel: I'll eat the Nut.\n")) := by
  refine ⟨[⟨Kind.Monkey, some 1⟩, ⟨Kind.Squirrel, some 2⟩, ⟨Kind.Dog, none⟩], 0, 1, 2,
    rfl, rfl, rfl, rfl, by decide, by decide, by decide, ?_, ?_⟩
  · intro fuel
    exact Handle_produced _ fuel 0 "Banana" ⟨Kind.Monkey, some 1⟩ rfl rfl
  · intro fuel
    rw [Handle_forward _ (fuel + 1) 0 1 "Nut" ⟨Kind.Monkey, some 1⟩ rfl (by decide) rfl,
      Handle_produced _ fuel 1 "Nut" ⟨Kind.Squirrel, some 2⟩ rfl rfl]
    rfl

/-- C6: in the chain of `main`, a request that is none of "Banana", "Nut" and
"MeatBall" sent to the head returns the empty string, and the handlers
consulted are the monkey, the squirrel and the dog, each once, in that order,
each declining. -/
theorem C6_unrecognised_consults_all (r : String)
    (hb : r ≠ "Banana") (hn : r ≠ "Nut") (hm : r ≠ "MeatBall") :
    ∃ heap m s d, main.chain = some (heap, m, s, d) ∧
      heap[m]?.map (fun o => o.kind) = some Kind.Monkey ∧
      heap[s]?.map (fun o => o.kind) = some Kind.Squirrel ∧
      heap[d]?.map (fun o => o.kind) = some Kind.Dog ∧
      ∀ fuel, Handler.Handle heap (fuel + 3) m r =
        some ([Event.declined m, Event.declined s, Event.declined d], "") := by
  refine ⟨[⟨Kind.Monkey, some 1⟩, ⟨Kind.Squirrel, some 2⟩, ⟨Kind.Dog, none⟩], 0, 1, 2,
    rfl, rfl, rfl, rfl, ?_⟩
  intro fuel
  rw [Handle_forward _ (fuel + 2) 0 1 r ⟨Kind.Monkey, some 1⟩ rfl hb rfl,
    Handle_forward _ (fuel + 1) 1 2 r ⟨Kind.Squirrel, some 2⟩ rfl hn rfl,
    Handle_unhandled _ fuel 2 r ⟨Kind.Dog, none⟩ rfl hm rfl]
  rfl

theorem C6_unrecognised_consults_all_witness :
    ∃ heap m s d, main.chain = some (heap, m, s, d) ∧
      heap[m]?.map (fun o => o.kind) = some Kind.Monkey ∧
      heap[s]?.map (fun o => o.kind) = some Kind.Squirrel ∧
      heap[d]?.map (fun o => o.kind) = some Kind.Dog ∧
      ∀ fuel, Handler.Handle heap (fuel + 3) m "Cup of coffee" =
        some ([Event.declined m, Event.declined s, Event.declined d], "") :=
  C6_unrecognised_consults_all "Cup of coffee" (by decide) (by decide) (by decide)

/-- C7: in a chain H1 -> H2 -> H3 built like the one of `main` from any three
concrete classes, a request recognised by exactly one handler Hk is answered
with the text of Hk, and the handlers consulted are H1, ..., Hk in chain
order: those before Hk decline, Hk produces, and none after Hk is consulted. -/
theorem C7_exactly_one_recogniser (k1 k2 k3 : Kind) (r : String) :
    ∃ heap h1 h2 h3, chainOfThree k1 k2 k3 = some (heap, h1, h2, h3) ∧
      heap[h1]? = some ⟨k1, some h2⟩ ∧ heap[h2]? = some ⟨k2, some h3⟩ ∧
      heap[h3]? = some ⟨k3, none⟩ ∧
      (recognises k1 r → ¬ recognises k2 r → ¬ recognises k3 r →
        ∀ fuel, Handler.Handle heap (fuel + 1) h1 r =
          some ([Event.produced h1], ownResult k1 r)) ∧
      (¬ recognises k1 r → recognises k2 r → ¬ recognises k3 r →
        ∀ fuel, Handler.Handle heap (fuel + 2) h1 r =
          some ([Event.declined h1, Event.produced h2], ownResult k2 r)) ∧
      (¬ recognises k1 r → ¬ recognises k2 r → recognises k3 r →
        ∀ fuel, Handler.Handle heap (fuel + 3) h1 r =
          some ([Event.declined h1, Event.declined h2, Event.produced h3],
            ownResult k3 r)) := by
  refine ⟨[⟨k1, some 1⟩, ⟨k2, some 2⟩, ⟨k3, none⟩], 0, 1, 2, rfl, rfl, rfl, rfl, ?_, ?_, ?_⟩
  · intro r1 _ _ fuel
    exact Handle_produced _ fuel 0 r ⟨k1, some 1⟩ rfl r1
  · intro r1 r2 _ fuel
    rw [Handle_forward _ (fuel + 1) 0 1 r ⟨k1, some 1⟩ rfl r1 rfl,
      Handle_produced _ fuel 1 r ⟨k2, some 2⟩ rfl r2]
    rfl
  · intro r1 r2 r3 fuel
    rw [Handle_forward _ (fuel + 2) 0 1 r ⟨k1, some 1⟩ rfl r1 rfl,
      Handle_forward _ (fuel + 1) 1 2 r ⟨k2, some 2⟩ rfl r2 rfl,
      Handle_produced _ fuel 2 r ⟨k3, none⟩ rfl r3]
    rfl

theorem C7_exactly_one_recogniser_witness :
    ∃ heap h1 h2 h3,
      chainOfThree Kind.Dog Kind.Monkey Kind.Squirrel = some (heap, h1, h2, h3) ∧
      Handler.Handle heap 3 h1 "Nut" =
        some ([Event.declined h1, Event.declined h2, Event.produced h3],
          "Squirrel: I'll eat the Nut.\n") := by
  obtain ⟨heap, h1, h2, h3, hc, _, _, _, _, _, hk3⟩ :=
    C7_exactly_one_recogniser Kind.Dog Kind.Monkey Kind.Squirrel "Nut"
  exact ⟨heap, h1, h2, h3, hc, hk3 (by decide) (by decide) (by decide) 0⟩

/-- C8: dispatch from an interior handler ignores its predecessors.  In the
chain of `main`, for every request and every fuel, `squirrel->Handle(r)` returns
what the head of the separately built chain Squirrel -> Dog returns, it returns
within two nested calls, and no event of the monkey is in its trace; for
"Banana" the squirrel returns the empty string while the monkey returns its own
text. -/
theorem C8_interior_dispatch_ignores_predecessors :
    ∃ heap m s d heap2 s2 d2, main.chain = some (heap, m, s, d) ∧
      chainSquirrelDog = some (heap2, s2, d2) ∧
      (∀ fuel r, (Handler.Handle heap fuel s r).map (fun o => o.2) =
        (Handler.Handle heap2 fuel s2 r).map (fun o => o.2)) ∧
      (∀ fuel r, ∃ trace v, Handler.Handle heap (fuel + 2) s r = some (trace, v)) ∧
      (∀ fuel r trace v, Handler.Handle heap fuel s r = some (trace, v) →
        Event.declined m ∉ trace ∧ Event.produced m ∉ trace) ∧
      Handler.Handle heap 2 s "Banana" =
        some ([Event.declined s, Event.declined d], "") ∧
      Handler.Handle heap 1 m "Banana" =
        some ([Event.produced m], "Monkey: I'll eat the Banana.\n") := by
  have key : ∀ fuel r,
      Handler.Handle [⟨Kind.Monkey, some 1⟩, ⟨Kind.Squirrel, some 2⟩, ⟨Kind.Dog, none⟩]
          (fuel + 2) 1 r =
        if r = "Nut" then some ([Event.produced 1], "Squirrel: I'll eat the " ++ r ++ ".\n")
        else if r = "MeatBall" then
          some ([Event.declined 1, Event.produced 2], "Dog: I'll eat the " ++ r ++ ".\n")
        else some ([Event.declined 1, Event.declined 2], "") := by
    intro fuel r
    rw [Handle_step _ (fuel + 1) 1 r ⟨Kind.Squirrel, some 2⟩ rfl]
    by_cases hn : r = "Nut"
    · rw [if_pos hn, if_pos (show recognises Kind.Squirrel r from hn)]; rfl
    · rw [if_neg hn, if_neg (show ¬ recognises Kind.Squirrel r from hn)]
      show logged (Event.declined 1) (Handler.Handle _ (fuel + 1) 2 r) = _
      rw [Handle_step _ fuel 2 r ⟨Kind.Dog, none⟩ rfl]
      by_cases hm : r = "MeatBall"
      · rw [if_pos hm, if_pos (show recognises Kind.Dog r from hm)]; rfl
      · rw [if_neg hm, if_neg (show ¬ recognises Kind.Dog r from hm)]; rfl
  have key2 : ∀ fuel r,
      Handler.Handle [⟨Kind.Squirrel, some 1⟩, ⟨Kind.Dog, none⟩] (fuel + 2) 0 r =
        if r = "Nut" then some ([Event.produced 0], "Squirrel: I'll eat the " ++ r ++ ".\n")
        else if r = "MeatBall" then
          some ([Event.declined 0, Event.produced 1], "Dog: I'll eat the " ++ r ++ ".\n")
        else some ([Event.declined 0, Event.declined 1], "") := by
    intro fuel r
    rw [Handle_step _ (fuel + 1) 0 r ⟨Kind.Squirrel, some 1⟩ rfl]
    by_cases hn : r = "Nut"
    · rw [if_pos hn, if_pos (show recognises Kind.Squirrel r from hn)]; rfl
    · rw [if_neg hn, if_neg (show ¬ recognises Kind.Squirrel r from hn)]
      show logged (Event.declined 0) (Handler.Handle _ (fuel + 1) 1 r) = _
      rw [Handle_step _ fuel 1 r ⟨Kind.Dog, none⟩ rfl]
      by_cases hm : r = "MeatBall"
      · rw [if_pos hm, if_pos (show recognises Kind.Dog r from hm)]; rfl
      · rw [if_neg hm, if_neg (show ¬ recognises Kind.Dog r from hm)]; rfl
  have one : ∀ r,
      Handler.Handle [⟨Kind.Monkey, some 1⟩, ⟨Kind.Squirrel, some 2⟩, ⟨Kind.Dog, none⟩] 1 1 r =
        if r = "Nut" then some ([Event.produced 1], "Squirrel: I'll eat the " ++ r ++ ".\n")
        else none := by
    intro r
    rw [Handle_step _ 0 1 r ⟨Kind.Squirrel, some 2⟩ rfl]
    by_cases hn : r = "Nut"
    · rw [if_pos hn, if_pos (show recognises Kind.Squirrel r from hn)]; rfl
    · rw [if_neg hn, if_neg (show ¬ recognises Kind.Squirrel r from hn)]; rfl
  have one2 : ∀ r,
      Handler.Handle [⟨Kind.Squirrel, some 1⟩, ⟨Kind.Dog, none⟩] 1 0 r =
        if r = "Nut" then some ([Event.produced 0], "Squirrel: I'll eat the " ++ r ++ ".\n")
        else none := by
    intro r
    rw [Handle_step _ 0 0 r ⟨Kind.Squirrel, some 1⟩ rfl]
    by_cases hn : r = "Nut"
    · rw [if_pos hn, if_pos (show recognises Kind.Squirrel r from hn)]; rfl
    · rw [if_neg hn, if_neg (show ¬ recognises Kind.Squirrel r from hn)]; rfl
  refine ⟨[⟨Kind.Monkey, some 1⟩, ⟨Kind.Squirrel, some 2⟩, ⟨Kind.Dog, none⟩], 0, 1, 2,
    [⟨Kind.Squirrel, some 1⟩, ⟨Kind.Dog, none⟩], 0, 1, rfl, rfl, ?_, ?_, ?_, rfl, rfl⟩
  · intro fuel r
    match fuel with
    | 0 => rfl
    | 1 =>
      rw [one r, one2 r]
      by_cases hn : r = "Nut"
      · rw [if_pos hn, if_pos hn]; rfl
      · rw [if_neg hn, if_neg hn]
    | n + 2 =>
      rw [key n r, key2 n r]
      by_cases hn : r = "Nut"
      · rw [if_pos hn, if_pos hn]; rfl
      · rw [if_neg hn, if_neg hn]
        by_cases hm : r = "MeatBall"
        · rw [if_pos hm, if_pos hm]; rfl
        · rw [if_neg hm, if_neg hm]; rfl
  · intro fuel r
    rw [key fuel r]
    by_cases hn : r = "Nut"
    · rw [if_pos hn]; exact ⟨_, _, rfl⟩
    · rw [if_neg hn]
      by_cases hm : r = "MeatBall"
      · rw [if_pos hm]; exact ⟨_, _, rfl⟩
      · rw [if_neg hm]; exact ⟨_, _, rfl⟩
  · intro fuel r trace v hv
    match fuel with
    | 0 => exact absurd hv (by simp [Handler.Handle])
    | 1 =>
      rw [one r] at hv
      by_cases hn : r = "Nut"
      · rw [if_pos hn] at hv
        obtain ⟨rfl, -⟩ := Prod.mk.inj (Option.some.inj hv)
        simp
      · rw [if_neg hn] at hv
        exact absurd hv (by simp)
    | n + 2 =>
      rw [key n r] at hv
      by_cases hn : r = "Nut"
      · rw [if_pos hn] at hv
        obtain ⟨rfl, -⟩ := Prod.mk.inj (Option.some.inj hv)
        simp
      · rw [if_neg hn] at hv
        by_cases hm : r = "MeatBall"
        · rw [if_pos hm] at hv
          obtain ⟨rfl, -⟩ := Prod.mk.inj (Option.some.inj hv)
          simp
        · rw [if_neg hm] at hv
          obtain ⟨rfl, -⟩ := Prod.mk.inj (Option.some.inj hv)
          simp

/-- C9: the three concrete handlers recognise pairwise disjoint requests.
For every request at most one class recognises it; any two handler objects
whose `Handle` produces its own text for the request (in whatever heaps) are of
the same class; and the trace of every returning call holds at most one
`produced` event. -/
theorem C9_recognised_requests_disjoint (r : String) :
    (∀ k1 k2, recognises k1 r → recognises k2 r → k1 = k2) ∧
    (¬ (r = "Banana" ∧ r = "Nut") ∧ ¬ (r = "Banana" ∧ r = "MeatBall") ∧
      ¬ (r = "Nut" ∧ r = "MeatBall")) ∧
    (∀ (heap1 heap2 : Heap) (fuel1 fuel2 p1 p2 : Nat) (o1 o2 : AbstractHandler)
        (t1 t2 : List Event) (v1 v2 : String),
      heap1[p1]? = some o1 → heap2[p2]? = some o2 →
      Handler.Handle heap1 fuel1 p1 r = some (Event.produced p1 :: t1, v1) →
      Handler.Handle heap2 fuel2 p2 r = some (Event.produced p2 :: t2, v2) →
      o1.kind = o2.kind) ∧
    (∀ (heap : Heap) (fuel h : Nat) (trace : List Event) (v : String),
      Handler.Handle heap fuel h r = some (trace, v) →
      trace.countP Event.isProduced ≤ 1) := by
  have own : ∀ (heap : Heap) (fuel p : Nat) (o : AbstractHandler) (t : List Event)
      (v : String), heap[p]? = some o →
      Handler.Handle heap fuel p r = some (Event.produced p :: t, v) →
      recognises o.kind r := by
    intro heap fuel p o t v ho h
    cases fuel with
    | zero => cases h
    | succ n =>
      obtain ⟨obj, hobj, h1 | h2 | h3⟩ := Handle_inv heap n p r _ v h
      · rw [ho] at hobj
        rw [Option.some.inj hobj]
        exact h1.1
      · exact absurd h2.2.2.1 (by simp)
      · obtain ⟨-, q, t, -, -, ht⟩ := h3
        exact absurd ht (by simp)
  refine ⟨?_, ⟨?_, ?_, ?_⟩, ?_, ?_⟩
  · intro k1 k2 h1 h2
    exact food_injective k1 k2 (h1.symm.trans h2)
  · rintro ⟨h1, h2⟩; exact absurd (h1.symm.trans h2) (by decide)
  · rintro ⟨h1, h2⟩; exact absurd (h1.symm.trans h2) (by decide)
  · rintro ⟨h1, h2⟩; exact absurd (h1.symm.trans h2) (by decide)
  · intro heap1 heap2 fuel1 fuel2 p1 p2 o1 o2 t1 t2 v1 v2 ho1 ho2 h1 h2
    exact food_injective _ _
      ((own heap1 fuel1 p1 o1 t1 v1 ho1 h1).symm.trans (own heap2 fuel2 p2 o2 t2 v2 ho2 h2))
  · intro heap fuel h trace v hv
    exact Handle_countP_produced heap r fuel h trace v hv

theorem C9_recognised_requests_disjoint_witness :
    [Event.declined 0, Event.produced 1].countP Event.isProduced ≤ 1 :=
  (C9_recognised_requests_disjoint "Nut").2.2.2
    [⟨Kind.Monkey, some 1⟩, ⟨Kind.Squirrel, some 2⟩, ⟨Kind.Dog, none⟩] 3 0
    [Event.declined 0, Event.produced 1] "Squirrel: I'll eat the Nut.\n" rfl

/-! ## Acyclic heaps -/

theorem successor_of_obj (heap : Heap) (p : Nat) (obj : AbstractHandler)
    (h : heap[p]? = some obj) : successor heap p = some obj.next_handler_ := by
  simp [successor, h]

theorem Reach_inv (heap : Heap) (p t : Nat) (h : Reach heap p t) :
    t = p ∨ ∃ q, successor heap p = some (some q) ∧ Reach heap q t := by
  cases h with
  | here => exact Or.inl rfl
  | next hs hq => exact Or.inr ⟨_, hs, hq⟩

theorem Reach_lt (heap : Heap) (hd : NoDangling heap) (p t : Nat) (h : Reach heap p t)
    (hp : p < heap.length) : t < heap.length := by
  induction h with
  | here => exact hp
  | next hs _ ih => exact ih (hd _ _ hs)

theorem ownResult_ne_empty (k : Kind) (r : String) : ownResult k r ≠ "" := by
  intro h
  have hd := congrArg String.data h
  cases k <;> simp [ownResult] at hd

theorem recognisesAt_of_obj (heap : Heap) (p : Nat) (obj : AbstractHandler) (r : String)
    (h : heap[p]? = some obj) : recognisesAt heap p r ↔ recognises obj.kind r := by
  simp [recognisesAt, h]

/-- In an acyclic heap without dangling pointers a call returns as soon as the
fuel covers the handlers reachable from the entry point, and the returned
string is non-empty exactly when a reachable handler recognises the request. -/
theorem Handle_acyclic (heap : Heap) (hd : NoDangling heap) (ha : Acyclic heap)
    (r : String) (n p : Nat) (hp : p < heap.length) (hn : heap.length ≤ n) :
    ∃ trace v, Handler.Handle heap n p r = some (trace, v) ∧
      (v ≠ "" ↔ ∃ t, Reach heap p t ∧ recognisesAt heap t r) := by
  classical
  have key : ∀ n p, p < heap.length →
      ((Finset.range heap.length).filter (fun t => Reach heap p t)).card ≤ n →
      ∃ trace v, Handler.Handle heap n p r = some (trace, v) ∧
        (v ≠ "" ↔ ∃ t, Reach heap p t ∧ recognisesAt heap t r) := by
    intro n
    induction n with
    | zero =>
      intro p hp hc
      have hmem : p ∈ (Finset.range heap.length).filter (fun t => Reach heap p t) := by
        simp [hp, Reach.here]
      have := Finset.card_pos.mpr ⟨p, hmem⟩
      omega
    | succ n ih =>
      intro p hp hc
      obtain ⟨obj, hobj⟩ : ∃ obj, heap[p]? = some obj :=
        ⟨heap[p], List.getElem?_eq_getElem hp⟩
      have hsucc := successor_of_obj heap p obj hobj
      by_cases hr : recognises obj.kind r
      · refine ⟨_, _, Handle_produced heap n p r obj hobj hr, ?_⟩
        constructor
        · intro _
          exact ⟨p, Reach.here p, (recognisesAt_of_obj heap p obj r hobj).mpr hr⟩
        · intro _
          exact ownResult_ne_empty obj.kind r
      · cases hnx : obj.next_handler_ with
        | none =>
          refine ⟨_, _, Handle_unhandled heap n p r obj hobj hr hnx, ?_⟩
          constructor
          · intro h; exact absurd rfl h
          · rintro ⟨t, ht, hrec⟩
            rcases Reach_inv heap p t ht with rfl | ⟨q, hq, -⟩
            · exact absurd ((recognisesAt_of_obj heap t obj r hobj).mp hrec) hr
            · rw [hsucc, hnx] at hq
              cases hq
        | some q =>
          have hpq : successor heap p = some (some q) := by rw [hsucc, hnx]
          have hq : q < heap.length := hd p q hpq
          have hlt : ((Finset.range heap.length).filter (fun t => Reach heap q t)).card <
              ((Finset.range heap.length).filter (fun t => Reach heap p t)).card := by
            apply Finset.card_lt_card
            rw [Finset.ssubset_iff_of_subset]
            · refine ⟨p, by simp [hp, Reach.here], ?_⟩
              simp only [Finset.mem_filter, not_and]
              intro _
              exact ha p q hpq
            · intro t ht
              simp only [Finset.mem_filter] at ht ⊢
              exact ⟨ht.1, Reach.next hpq ht.2⟩
          obtain ⟨t, v, hv, hiff⟩ := ih q hq (by omega)
          refine ⟨Event.declined p :: t, v, ?_, ?_⟩
          · rw [Handle_forward heap n p q r obj hobj hr hnx, hv]; rfl
          · rw [hiff]
            constructor
            · rintro ⟨x, hx, hrec⟩
              exact ⟨x, Reach.next hpq hx, hrec⟩
            · rintro ⟨x, hx, hrec⟩
              rcases Reach_inv heap p x hx with rfl | ⟨q1, hq1, hx1⟩
              · exact absurd ((recognisesAt_of_obj heap x obj r hobj).mp hrec) hr
              · rw [hpq] at hq1
                obtain rfl : q = q1 := Option.some.inj (Option.some.inj hq1)
                exact ⟨x, hx1, hrec⟩
  apply key n p hp
  calc ((Finset.range heap.length).filter (fun t => Reach heap p t)).card
      ≤ (Finset.range heap.length).card := Finset.card_filter_le _ _
    _ = heap.length := Finset.card_range _
    _ ≤ n := hn

theorem acyclic_of_ascending (heap : Heap)
    (h : ∀ p q, successor heap p = some (some q) → p < q) : Acyclic heap := by
  have mono : ∀ p t, Reach heap p t → p ≤ t := by
    intro p t hr
    induction hr with
    | here => exact Nat.le_refl _
    | next hs _ ih => exact Nat.le_trans (Nat.le_of_lt (h _ _ hs)) ih
  intro p q hpq hqp
  exact absurd (mono q p hqp) (Nat.not_le.mpr (h p q hpq))

theorem append_left_cancel_string (a x y : String) (h : a ++ x = a ++ y) : x = y := by
  have hd := congrArg String.data h
  rw [String.data_append, String.data_append] at hd
  exact String.ext (List.append_cancel_left hd)

theorem plus_line_ne_untouched (v f : String) :
    "     +" ++ v ≠ "          -" ++ f ++ " was left untouched.\n" := by
  intro h
  have hd := congrArg String.data h
  simp at hd

/-- What one iteration of `ClientCode` prints, given what `Handle` returned. -/
theorem ClientCode_body_untouched_iff (heap : Heap) (fuel handler : Nat) (f : String)
    (trace : List Event) (v : String)
    (h : Handler.Handle heap fuel handler f = some (trace, v)) :
    ClientCode.body heap fuel handler f =
        some ("Client: Who wants a  " ++ f ++ "?\n" ++
          ("          -" ++ f ++ " was left untouched.\n")) ↔ v = "" := by
  unfold ClientCode.body
  rw [h]
  constructor
  · intro hb
    by_contra hv
    have hb1 := Option.some.inj hb
    simp only [ne_eq, hv, not_false_eq_true, if_true] at hb1
    exact plus_line_ne_untouched v f (append_left_cancel_string _ _ _ hb1)
  · intro hv
    simp [hv]

/-- In an acyclic heap one iteration of `ClientCode` writes a report, and the
report is the "left untouched" one exactly when no reachable handler
recognises the food. -/
theorem ClientCode_body_acyclic (heap : Heap) (hd : NoDangling heap) (ha : Acyclic heap)
    (h : Nat) (hh : h < heap.length) (f : String) (fuel : Nat) (hf : heap.length ≤ fuel) :
    ∃ o, ClientCode.body heap fuel h f = some o ∧
      (o = "Client: Who wants a  " ++ f ++ "?\n" ++
            ("          -" ++ f ++ " was left untouched.\n") ↔
        ¬ ∃ t, Reach heap h t ∧ recognisesAt heap t f) := by
  obtain ⟨trace, v, hv, hiff⟩ := Handle_acyclic heap hd ha f fuel h hh hf
  have hbody := ClientCode_body_untouched_iff heap fuel h f trace v hv
  cases ho : ClientCode.body heap fuel h f with
  | none =>
    unfold ClientCode.body at ho
    rw [hv] at ho
    cases ho
  | some o =>
    refine ⟨o, rfl, ?_⟩
    rw [ho] at hbody
    rw [← hiff, not_not, ← hbody]
    constructor
    · intro he; rw [he]
    · intro he; exact Option.some.inj he

theorem ClientCode_eq (heap : Heap) (fuel h : Nat) (o1 o2 o3 : String)
    (h1 : ClientCode.body heap fuel h "Nut" = some o1)
    (h2 : ClientCode.body heap fuel h "Banana" = some o2)
    (h3 : ClientCode.body heap fuel h "Cup of coffe" = some o3) :
    ClientCode heap fuel h = some ("" ++ o1 ++ o2 ++ o3) := by
  simp [ClientCode, ClientCode.food, List.foldlM, h1, h2, h3]

/-- C10: the empty string faithfully encodes "unhandled".  In a heap whose
successor references are acyclic and point to objects, for every entry point
`h` and every request `r` (the empty string included) `h->Handle(r)` returns,
and the returned string is non-empty exactly when a handler reachable from `h`
recognises `r`; so the iteration of `ClientCode` for `r` prints the
"was left untouched" line exactly when no reachable handler recognises `r`,
and `ClientCode` returns and writes one report for each of its three foods, in
order, the report of a food being the "left untouched" one exactly when no
handler reachable from `h` recognises that food. -/
theorem C10_empty_iff_unhandled (heap : Heap) (hd : NoDangling heap) (ha : Acyclic heap)
    (h : Nat) (hh : h < heap.length) (r : String) (fuel : Nat) (hf : heap.length ≤ fuel) :
    ∃ trace v, Handler.Handle heap fuel h r = some (trace, v) ∧
      (v ≠ "" ↔ ∃ t, Reach heap h t ∧ recognisesAt heap t r) ∧
      (ClientCode.body heap fuel h r =
          some ("Client: Who wants a  " ++ r ++ "?\n" ++
            ("          -" ++ r ++ " was left untouched.\n")) ↔
        ¬ ∃ t, Reach heap h t ∧ recognisesAt heap t r) ∧
      ∃ o1 o2 o3, ClientCode heap fuel h = some ("" ++ o1 ++ o2 ++ o3) ∧
        ∀ fo ∈ [("Nut", o1), ("Banana", o2), ("Cup of coffe", o3)],
          ClientCode.body heap fuel h fo.1 = some fo.2 ∧
          (fo.2 = "Client: Who wants a  " ++ fo.1 ++ "?\n" ++
                ("          -" ++ fo.1 ++ " was left untouched.\n") ↔
            ¬ ∃ t, Reach heap h t ∧ recognisesAt heap t fo.1) := by
  obtain ⟨trace, v, hv, hiff⟩ := Handle_acyclic heap hd ha r fuel h hh hf
  obtain ⟨o1, hb1, hi1⟩ := ClientCode_body_acyclic heap hd ha h hh "Nut" fuel hf
  obtain ⟨o2, hb2, hi2⟩ := ClientCode_body_acyclic heap hd ha h hh "Banana" fuel hf
  obtain ⟨o3, hb3, hi3⟩ := ClientCode_body_acyclic heap hd ha h hh "Cup of coffe" fuel hf
  refine ⟨trace, v, hv, hiff, ?_, o1, o2, o3,
    ClientCode_eq heap fuel h o1 o2 o3 hb1 hb2 hb3, ?_⟩
  · rw [ClientCode_body_untouched_iff heap fuel h r trace v hv, ← hiff]
    exact not_not.symm
  · intro fo hfo
    simp only [List.mem_cons, List.mem_singleton, List.not_mem_nil, or_false] at hfo
    rcases hfo with rfl | rfl | rfl
    · exact ⟨hb1, hi1⟩
    · exact ⟨hb2, hi2⟩
    · exact ⟨hb3, hi3⟩

theorem C10_empty_iff_unhandled_witness :
    ∃ trace v,
      Handler.Handle [⟨Kind.Monkey, some 1⟩, ⟨Kind.Squirrel, some 2⟩, ⟨Kind.Dog, none⟩]
        3 1 "" = some (trace, v) ∧
      (v ≠ "" ↔ ∃ t,
        Reach [⟨Kind.Monkey, some 1⟩, ⟨Kind.Squirrel, some 2⟩, ⟨Kind.Dog, none⟩] 1 t ∧
        recognisesAt [⟨Kind.Monkey, some 1⟩, ⟨Kind.Squirrel, some 2⟩, ⟨Kind.Dog, none⟩]
          t "") ∧
      (ClientCode.body [⟨Kind.Monkey, some 1⟩, ⟨Kind.Squirrel, some 2⟩, ⟨Kind.Dog, none⟩]
          3 1 "" =
          some ("Client: Who wants a  " ++ "" ++ "?\n" ++
            ("          -" ++ "" ++ " was left untouched.\n")) ↔
        ¬ ∃ t,
          Reach [⟨Kind.Monkey, some 1⟩, ⟨Kind.Squirrel, some 2⟩, ⟨Kind.Dog, none⟩] 1 t ∧
          recognisesAt [⟨Kind.Monkey, some 1⟩, ⟨Kind.Squirrel, some 2⟩, ⟨Kind.Dog, none⟩]
            t "") ∧
      ∃ o1 o2 o3,
        ClientCode [⟨Kind.Monkey, some 1⟩, ⟨Kind.Squirrel, some 2⟩, ⟨Kind.Dog, none⟩] 3 1 =
          some ("" ++ o1 ++ o2 ++ o3) ∧
        ∀ fo ∈ [("Nut", o1), ("Banana", o2), ("Cup of coffe", o3)],
          ClientCode.body [⟨Kind.Monkey, some 1⟩, ⟨Kind.Squirrel, some 2⟩, ⟨Kind.Dog, none⟩]
            3 1 fo.1 = some fo.2 ∧
          (fo.2 = "Client: Who wants a  " ++ fo.1 ++ "?\n" ++
                ("          -" ++ fo.1 ++ " was left untouched.\n") ↔
            ¬ ∃ t,
              Reach [⟨Kind.Monkey, some 1⟩, ⟨Kind.Squirrel, some 2⟩, ⟨Kind.Dog, none⟩] 1 t ∧
              recognisesAt
                [⟨Kind.Monkey, some 1⟩, ⟨Kind.Squirrel, some 2⟩, ⟨Kind.Dog, none⟩] t fo.1) := by
  have asc : ∀ p q,
      successor [⟨Kind.Monkey, some 1⟩, ⟨Kind.Squirrel, some 2⟩, ⟨Kind.Dog, none⟩] p =
        some (some q) → p < q ∧ q < 3 := by
    intro p q hpq
    match p with
    | 0 => simp [successor] at hpq; omega
    | 1 => simp [successor] at hpq; omega
    | 2 => simp [successor] at hpq
    | n + 3 => simp [successor] at hpq
  exact C10_empty_iff_unhandled
    [⟨Kind.Monkey, some 1⟩, ⟨Kind.Squirrel, some 2⟩, ⟨Kind.Dog, none⟩]
    (fun p q hpq => (asc p q hpq).2)
    (acyclic_of_ascending _ (fun p q hpq => (asc p q hpq).1))
    1 (by decide) "" 3 (Nat.le_refl 3)

/-! ## Cycles -/

theorem Reach_trans (heap : Heap) (a b c : Nat) (hab : Reach heap a b) (hbc : Reach heap b c) :
    Reach heap a c := by
  induction hab with
  | here => exact hbc
  | next hs _ ih => exact Reach.next hs (ih hbc)

theorem successor_set (heap : Heap) (h p : Nat) (obj new : AbstractHandler)
    (hh : heap[h]? = some obj) :
    successor (heap.set h new) p =
      if p = h then some new.next_handler_ else successor heap p := by
  unfold successor
  by_cases hp : p = h
  · subst hp
    rw [if_pos rfl, getElem?_set_same heap p obj new hh]; rfl
  · rw [if_neg hp, List.getElem?_set_ne (Ne.symm hp)]

/-- A path of the heap after `h->SetNext(s)` is a path of the heap before, or
goes through `h` and continues from `s`. -/
theorem Reach_set (heap : Heap) (h : Nat) (s : Ptr) (obj : AbstractHandler)
    (hh : heap[h]? = some obj) (a b : Nat)
    (hab : Reach (heap.set h { obj with next_handler_ := s }) a b) :
    Reach heap a b ∨
      (Reach heap a h ∧ ∃ q, s = some q ∧
        Reach (heap.set h { obj with next_handler_ := s }) q b) := by
  induction hab with
  | here => exact Or.inl (Reach.here _)
  | @next p q t hs hq ih =>
    rw [successor_set heap h p obj _ hh] at hs
    by_cases hp : p = h
    · rw [if_pos hp] at hs
      subst hp
      exact Or.inr ⟨Reach.here _, q, Option.some.inj hs, hq⟩
    · rw [if_neg hp] at hs
      rcases ih with h1 | ⟨h1, h2⟩
      · exact Or.inl (Reach.next hs h1)
      · exact Or.inr ⟨Reach.next hs h1, h2⟩

theorem Acyclic_set (heap : Heap) (h : Nat) (s : Ptr) (obj : AbstractHandler)
    (hh : heap[h]? = some obj) (ha : Acyclic heap)
    (hg : ∀ q, s = some q → ¬ Reach heap q h) :
    Acyclic (heap.set h { obj with next_handler_ := s }) := by
  intro p q hpq hqp
  rw [successor_set heap h p obj _ hh] at hpq
  by_cases hp : p = h
  · rw [if_pos hp] at hpq
    subst hp
    have hs : s = some q := Option.some.inj hpq
    rcases Reach_set heap p s obj hh q p hqp with h1 | ⟨h1, -⟩
    · exact hg q hs h1
    · exact hg q hs h1
  · rw [if_neg hp] at hpq
    rcases Reach_set heap h s obj hh q p hqp with h1 | ⟨h1, q1, hs, h2⟩
    · exact ha p q hpq h1
    · rcases Reach_set heap h s obj hh q1 p h2 with h3 | ⟨h3, -⟩
      · exact hg q1 hs (Reach_trans heap q1 p h h3 (Reach.next hpq h1))
      · exact hg q1 hs h3

theorem fresh_eq (ks : List Kind) :
    fresh ks = ks.map (fun k => { kind := k, next_handler_ := none }) := by
  have gen : ∀ (ks : List Kind) (heap : Heap),
      ks.foldl (fun heap k => (make_unique heap k).1) heap =
        heap ++ ks.map (fun k => { kind := k, next_handler_ := none }) := by
    intro ks
    induction ks with
    | nil => intro heap; simp
    | cons k ks ih =>
      intro heap
      rw [List.foldl_cons, ih]
      simp [make_unique]
  simpa [fresh] using gen ks []

theorem fresh_successor (ks : List Kind) (p : Nat) (q : Nat) :
    successor (fresh ks) p ≠ some (some q) := by
  rw [fresh_eq]
  unfold successor
  intro h
  rw [List.getElem?_map] at h
  cases hk : ks[p]? with
  | none => rw [hk] at h; cases h
  | some k => rw [hk] at h; cases h

theorem Acyclic_fresh (ks : List Kind) : Acyclic (fresh ks) := by
  intro p q hpq
  exact absurd hpq (fresh_successor ks p q)

theorem Acyclic_setNextAll (calls : List (Nat × Ptr)) :
    ∀ (heap heap1 : Heap), Acyclic heap → Guarded heap calls →
      setNextAll heap calls = some heap1 → Acyclic heap1 := by
  induction calls with
  | nil =>
    intro heap heap1 ha _ hrun
    rw [← Option.some.inj hrun]
    exact ha
  | cons c rest ih =>
    intro heap heap1 ha hg hrun
    obtain ⟨h, s⟩ := c
    obtain ⟨hg1, hg2⟩ := hg
    cases hobj : heap[h]? with
    | none =>
      simp [setNextAll, Handler.SetNext, hobj] at hrun
    | some obj =>
      have hset := SetNext_eq heap h s obj hobj
      simp only [setNextAll, hset] at hrun
      simp only [hset] at hg2
      exact ih _ heap1 (Acyclic_set heap h s obj hobj ha hg1) hg2 hrun


theorem Reach_fresh (ks : List Kind) (a b : Nat) (h : Reach (fresh ks) a b) : b = a := by
  rcases Reach_inv _ a b h with rfl | ⟨q, hq, -⟩
  · rfl
  · exact absurd hq (fresh_successor ks a q)

/-- C11, as stated, fails: `SetNext` checks nothing.  From two handlers with no
successor, `a->SetNext(b)` and then `b->SetNext(a)` return normally and leave
`a` reached again from its own successor; a request neither recognises is then
passed round for ever, so `Handle` returns for no amount of fuel. -/
theorem C11_counterexample :
    ∃ heap1, setNextAll (fresh [Kind.Monkey, Kind.Squirrel]) [(0, some 1), (1, some 0)] =
        some heap1 ∧
      successor heap1 0 = some (some 1) ∧ successor heap1 1 = some (some 0) ∧
      Reach heap1 1 0 ∧ ¬ Acyclic heap1 ∧
      ∀ fuel, Handler.Handle heap1 fuel 0 "MeatBall" = none := by
  have hreach : Reach [⟨Kind.Monkey, some 1⟩, ⟨Kind.Squirrel, some 0⟩] 1 0 :=
    Reach.next (q := 0) rfl (Reach.here 0)
  refine ⟨[⟨Kind.Monkey, some 1⟩, ⟨Kind.Squirrel, some 0⟩], rfl, rfl, rfl, hreach, ?_, ?_⟩
  · intro ha
    exact ha 0 1 rfl hreach
  · have both : ∀ fuel,
        Handler.Handle [⟨Kind.Monkey, some 1⟩, ⟨Kind.Squirrel, some 0⟩] fuel 0 "MeatBall" = none ∧
        Handler.Handle [⟨Kind.Monkey, some 1⟩, ⟨Kind.Squirrel, some 0⟩] fuel 1 "MeatBall" = none := by
      intro fuel
      induction fuel with
      | zero => exact ⟨rfl, rfl⟩
      | succ n ih =>
        constructor
        · rw [Handle_forward _ n 0 1 "MeatBall" ⟨Kind.Monkey, some 1⟩ rfl (by decide) rfl, ih.2]
          rfl
        · rw [Handle_forward _ n 1 0 "MeatBall" ⟨Kind.Squirrel, some 0⟩ rfl (by decide) rfl, ih.1]
          rfl
    exact fun fuel => (both fuel).1

/-- C11, amended: starting from handlers with no successor, after any sequence
of `SetNext` calls among them in which no call `h->SetNext(s)` is made while
`h` is reached from `s` (so never `h->SetNext(h)`), following successor
references from any handler never reaches the same handler twice. -/
theorem C11_guarded_links_stay_acyclic (ks : List Kind) (calls : List (Nat × Ptr))
    (heap1 : Heap) (hg : Guarded (fresh ks) calls)
    (hrun : setNextAll (fresh ks) calls = some heap1) :
    Acyclic heap1 :=
  Acyclic_setNextAll calls (fresh ks) heap1 (Acyclic_fresh ks) hg hrun

theorem C11_guarded_links_stay_acyclic_witness :
    Acyclic [⟨Kind.Monkey, some 1⟩, ⟨Kind.Squirrel, some 2⟩, ⟨Kind.Dog, none⟩] := by
  refine C11_guarded_links_stay_acyclic [Kind.Monkey, Kind.Squirrel, Kind.Dog]
    [(0, some 1), (1, some 2)] _ ?_ rfl
  refine ⟨?_, ?_, trivial⟩
  · intro q hq hr
    have h10 : (1 : Nat) = q := Option.some.inj hq
    subst h10
    exact absurd (Reach_fresh _ 1 0 hr) (by decide)
  · intro q hq hr
    have h2 : (2 : Nat) = q := Option.some.inj hq
    subst h2
    rcases Reach_inv _ 2 1 hr with h | ⟨t, ht, -⟩
    · exact absurd h (by decide)
    · have ht1 : successor [⟨Kind.Monkey, some 1⟩, ⟨Kind.Squirrel, none⟩, ⟨Kind.Dog, none⟩] 2 =
          some (some t) := ht
      simp [successor] at ht1

/-! ## Termination -/

theorem Traversal_head (heap : Heap) (r : String) (h : Nat) (e : Event) (rest : List Event)
    (ht : Traversal heap r h (e :: rest)) : e.addr = h := by
  cases rest with
  | nil =>
    rcases ht with ⟨rfl, -⟩ | ⟨rfl, -⟩ <;> rfl
  | cons e1 rest =>
    obtain ⟨rfl, -⟩ := ht
    rfl

theorem Handle_traversal (heap : Heap) (r : String) :
    ∀ (fuel h : Nat) (trace : List Event) (v : String),
      Handler.Handle heap fuel h r = some (trace, v) → Traversal heap r h trace := by
  intro fuel
  induction fuel with
  | zero => intro h trace v hv; cases hv
  | succ n ih =>
    intro h trace v hv
    obtain ⟨obj, hobj, h1 | h2 | h3⟩ := Handle_inv heap n h r trace v hv
    · rw [h1.2.1]
      exact Or.inl ⟨rfl, (recognisesAt_of_obj heap h obj r hobj).mpr h1.1⟩
    · rw [h2.2.2.1]
      refine Or.inr ⟨rfl, fun hc => h2.1 ((recognisesAt_of_obj heap h obj r hobj).mp hc), ?_⟩
      rw [successor_of_obj heap h obj hobj, h2.2.1]
    · obtain ⟨hr, q, t, hq, hqv, ht⟩ := h3
      have hqt := ih q t v hqv
      cases t with
      | nil => exact absurd hqt (by simp [Traversal])
      | cons e1 rest =>
        have he1 := Traversal_head heap r q e1 rest hqt
        rw [ht]
        refine ⟨rfl, fun hc => hr ((recognisesAt_of_obj heap h obj r hobj).mp hc), ?_, ?_⟩
        · rw [successor_of_obj heap h obj hobj, hq, he1]
        · rw [he1]; exact hqt

theorem Traversal_reach (heap : Heap) (r : String) (trace : List Event) :
    ∀ h, Traversal heap r h trace → ∀ e ∈ trace, Reach heap h e.addr := by
  induction trace with
  | nil => intro h ht; exact absurd ht (by simp [Traversal])
  | cons e t ih =>
    intro h ht x hx
    have he := Traversal_head heap r h e t ht
    cases t with
    | nil =>
      rw [List.mem_singleton] at hx
      rw [hx, he]
      exact Reach.here h
    | cons e1 rest =>
      obtain ⟨-, -, hs, ht1⟩ := ht
      rcases List.mem_cons.mp hx with rfl | hx1
      · rw [he]; exact Reach.here h
      · exact Reach.next hs (ih e1.addr ht1 x hx1)

theorem Traversal_nodup (heap : Heap) (ha : Acyclic heap) (r : String) (trace : List Event) :
    ∀ h, Traversal heap r h trace → (trace.map Event.addr).Nodup := by
  induction trace with
  | nil => intro h _; exact List.nodup_nil
  | cons e t ih =>
    intro h ht
    have he := Traversal_head heap r h e t ht
    cases t with
    | nil => simp
    | cons e1 rest =>
      obtain ⟨-, -, hs, ht1⟩ := ht
      rw [List.map_cons, List.nodup_cons]
      refine ⟨?_, ih e1.addr ht1⟩
      intro hmem
      obtain ⟨x, hx, hxa⟩ := List.mem_map.mp hmem
      have hreach := Traversal_reach heap r (e1 :: rest) e1.addr ht1 x hx
      rw [hxa, he] at hreach
      exact ha h e1.addr hs hreach

/-- C12: in a heap whose successor references are acyclic (and point to
objects), for every entry point and every request `Handle` returns once the
fuel covers the handlers of the heap.  The trace is a traversal from the
entry point: each handler but the last declines and hands over to its
successor, the last is the first that recognises the request or has a null
successor; no handler appears in it twice, so it is no longer than the heap. -/
theorem C12_Handle_terminates (heap : Heap) (hd : NoDangling heap) (ha : Acyclic heap)
    (h : Nat) (hh : h < heap.length) (r : String) (fuel : Nat) (hf : heap.length ≤ fuel) :
    ∃ trace v, Handler.Handle heap fuel h r = some (trace, v) ∧
      Traversal heap r h trace ∧ (trace.map Event.addr).Nodup ∧
      trace.length ≤ heap.length := by
  obtain ⟨trace, v, hv, -⟩ := Handle_acyclic heap hd ha r fuel h hh hf
  have ht := Handle_traversal heap r fuel h trace v hv
  have hn := Traversal_nodup heap ha r trace h ht
  refine ⟨trace, v, hv, ht, hn, ?_⟩
  have hsub : (trace.map Event.addr).toFinset ⊆ Finset.range heap.length := by
    intro x hx
    rw [List.mem_toFinset] at hx
    obtain ⟨e, he, rfl⟩ := List.mem_map.mp hx
    exact Finset.mem_range.mpr (Reach_lt heap hd h e.addr (Traversal_reach heap r trace h ht e he) hh)
  have hcard := Finset.card_le_card hsub
  rw [List.toFinset_card_of_nodup hn, Finset.card_range, List.length_map] at hcard
  exact hcard

theorem C12_Handle_terminates_witness :
    ∃ trace v,
      Handler.Handle [⟨Kind.Monkey, some 1⟩, ⟨Kind.Squirrel, some 2⟩, ⟨Kind.Dog, none⟩]
        3 0 "MeatBall" = some (trace, v) ∧
      Traversal [⟨Kind.Monkey, some 1⟩, ⟨Kind.Squirrel, some 2⟩, ⟨Kind.Dog, none⟩]
        "MeatBall" 0 trace ∧
      (trace.map Event.addr).Nodup ∧ trace.length ≤ 3 := by
  have asc : ∀ p q,
      successor [⟨Kind.Monkey, some 1⟩, ⟨Kind.Squirrel, some 2⟩, ⟨Kind.Dog, none⟩] p =
        some (some q) → p < q ∧ q < 3 := by
    intro p q hpq
    match p with
    | 0 => simp [successor] at hpq; omega
    | 1 => simp [successor] at hpq; omega
    | 2 => simp [successor] at hpq
    | n + 3 => simp [successor] at hpq
  exact C12_Handle_terminates
    [⟨Kind.Monkey, some 1⟩, ⟨Kind.Squirrel, some 2⟩, ⟨Kind.Dog, none⟩]
    (fun p q hpq => (asc p q hpq).2)
    (acyclic_of_ascending _ (fun p q hpq => (asc p q hpq).1))
    0 (by decide) "MeatBall" 3 (Nat.le_refl 3)

end ChainOfResponsibility

namespace StrategyPattern

theorem length_eq_data (s : String) : s.length = s.data.length := by
  cases s; rfl

theorem data_std_swap (s : String) (i j : Nat) (a b : Char)
    (ha : s.data[i]? = some a) (hb : s.data[j]? = some b) :
    (std_swap s i j).data = (s.data.set i b).set j a := by
  unfold std_swap
  rw [ha, hb]

theorem data_for_each (data : List String) :
    (for_each data).data = (data.map String.data).flatten :=
  String.data_join data

/-- The loop invariant of `ConcreteStrategyB`: after `i` rounds the first `i`
and the last `i` characters are those of the reversed string and the middle is
untouched; from such a state the loop ends with the reversed string. -/
theorem loop_reverses (INT_MAX : Nat) (l : List Char) (hn : l.length / 2 ≤ INT_MAX) :
    ∀ (m i : Nat) (cur : String), m = l.length / 2 - i → i ≤ l.length / 2 →
      cur.data.length = l.length →
      (∀ k, cur.data[k]? = if k < i ∨ l.length - i ≤ k then l.reverse[k]? else l[k]?) →
      ConcreteStrategyB.loop INT_MAX cur i = some ⟨l.reverse⟩ := by
  intro m
  induction m with
  | zero =>
    intro i cur hm hi hlen hinv
    have hi2 : i = l.length / 2 := by omega
    rw [ConcreteStrategyB.loop, if_neg (by rw [length_eq_data, hlen]; omega)]
    congr 1
    apply String.ext
    apply List.ext_getElem?
    intro k
    rw [hinv k]
    split
    · rfl
    · rename_i hk
      have hk1 : k < l.length := by omega
      rw [List.getElem?_reverse hk1]
      congr 1
      omega
  | succ m ih =>
    intro i cur hm hi hlen hinv
    have hi2 : i < l.length / 2 := by omega
    have hil : i < l.length := by omega
    have hjl : l.length - i - 1 < l.length := by omega
    rw [ConcreteStrategyB.loop, if_pos (by rw [length_eq_data, hlen]; exact hi2),
      if_pos (by omega), length_eq_data, hlen]
    have hci : cur.data[i]? = l[i]? := by
      rw [hinv i, if_neg (by omega)]
    have hcj : cur.data[l.length - i - 1]? = l[l.length - i - 1]? := by
      rw [hinv _, if_neg (by omega)]
    have hli : l[i]? = some l[i] := List.getElem?_eq_getElem hil
    have hlj : l[l.length - i - 1]? = some l[l.length - i - 1] := List.getElem?_eq_getElem hjl
    have hdata := data_std_swap cur i (l.length - i - 1) _ _ (hci.trans hli) (hcj.trans hlj)
    apply ih (i + 1) _ (by omega) (by omega)
    · rw [hdata, List.length_set, List.length_set, hlen]
    · intro k
      rw [hdata, List.getElem?_set, List.getElem?_set]
      by_cases hkj : l.length - i - 1 = k
      · rw [if_pos hkj, if_pos (by rw [List.length_set, hlen]; exact hjl),
          if_pos (by omega), ← hkj, List.getElem?_reverse hjl, ← hli]
        congr 1
        omega
      · rw [if_neg hkj]
        by_cases hki : i = k
        · rw [if_pos hki, if_pos (by rw [hlen]; exact hil), if_pos (by omega), ← hki,
            List.getElem?_reverse hil, ← hlj]
          congr 1
          omega
        · rw [if_neg hki, hinv k]
          by_cases hc : k < i ∨ l.length - i ≤ k
          · rw [if_pos hc, if_pos (by omega)]
          · rw [if_neg hc, if_neg (by omega)]

theorem length_std_sort (char_signed : Bool) (s : String) :
    (std_sort char_signed s).data.length = s.data.length :=
  List.length_insertionSort _ s.data

theorem sorted_std_sort (char_signed : Bool) (s : String) :
    List.Sorted (char_le char_signed) (std_sort char_signed s).data := by
  haveI : IsTotal Char (char_le char_signed) := ⟨fun a b => Int.le_total _ _⟩
  haveI : IsTrans Char (char_le char_signed) := ⟨fun _ _ _ hab hbc => Int.le_trans hab hbc⟩
  exact List.sorted_insertionSort (char_le char_signed) s.data

/-- On characters that fit a `char` the order of `char` has no ties. -/
theorem char_le_antisymm (char_signed : Bool) (a b : Char)
    (ha : a.toNat < 256) (hb : b.toNat < 256)
    (hab : char_le char_signed a b) (hba : char_le char_signed b a) : a = b := by
  have hv : char_value char_signed a = char_value char_signed b := Int.le_antisymm hab hba
  have hn : a.toNat = b.toNat := by
    unfold char_value at hv
    split at hv <;> split at hv <;> omega
  have := congrArg Char.ofNat hn
  rwa [Char.ofNat_toNat, Char.ofNat_toNat] at this

/-- C13: `ConcreteStrategyB` is reverse sorting.  For every `data` whose
characters number at most `2 * INT_MAX + 1` (so that the `int` counter of the
loop stays in range) `ConcreteStrategyB::DoAlforithm(data)` returns the
characters of `ConcreteStrategyA::DoAlforithm(data)` in reverse order, for
even and odd lengths alike, and the result is in non-increasing order of
`char`, whether plain `char` is signed or not. -/
theorem C13_StrategyB_reverses_StrategyA (INT_MAX : Nat) (char_signed : Bool)
    (data : List String) (hsize : (data.map String.length).sum / 2 ≤ INT_MAX) :
    ConcreteStrategyB.DoAlforithm INT_MAX char_signed data =
        some ⟨(ConcreteStrategyA.DoAlforithm char_signed data).data.reverse⟩ ∧
    ∃ result, ConcreteStrategyB.DoAlforithm INT_MAX char_signed data = some result ∧
      result.data = (ConcreteStrategyA.DoAlforithm char_signed data).data.reverse ∧
      result.length = (data.map String.length).sum ∧
      List.Sorted (fun a b => char_value char_signed a ≥ char_value char_signed b)
        result.data := by
  have hsum : (for_each data).data.length = (data.map String.length).sum := by
    rw [data_for_each, List.length_flatten, List.map_map]
    congr 1
  have hlen : (std_sort char_signed (for_each data)).data.length =
      (data.map String.length).sum := by
    rw [length_std_sort, hsum]
  have hrun : ConcreteStrategyB.DoAlforithm INT_MAX char_signed data =
      some ⟨(ConcreteStrategyA.DoAlforithm char_signed data).data.reverse⟩ := by
    unfold ConcreteStrategyB.DoAlforithm ConcreteStrategyA.DoAlforithm
    apply loop_reverses INT_MAX (std_sort char_signed (for_each data)).data
      (by rw [hlen]; exact hsize)
      ((std_sort char_signed (for_each data)).data.length / 2) 0 _ rfl (Nat.zero_le _) rfl
    intro k
    by_cases hk : k < (std_sort char_signed (for_each data)).data.length
    · rw [if_neg (by omega)]
    · rw [if_pos (by omega), List.getElem?_eq_none (by omega),
        List.getElem?_eq_none (by rw [List.length_reverse]; omega)]
  refine ⟨hrun, _, hrun, rfl, ?_, ?_⟩
  · rw [length_eq_data]
    show (ConcreteStrategyA.DoAlforithm char_signed data).data.reverse.length = _
    rw [List.length_reverse]
    exact hlen
  · show List.Sorted (fun a b => char_value char_signed a ≥ char_value char_signed b)
      (ConcreteStrategyA.DoAlforithm char_signed data).data.reverse
    rw [List.Sorted, List.pairwise_reverse]
    exact sorted_std_sort char_signed (for_each data)

theorem C13_StrategyB_reverses_StrategyA_witness :
    ConcreteStrategyB.DoAlforithm 32767 true ["a", "e", "c", "b", "d"] = some "edcba" ∧
    ConcreteStrategyB.DoAlforithm 32767 false ["b", "d", "a", "c"] = some "dcba" ∧
    ConcreteStrategyB.DoAlforithm 32767 true ["a", "\xe9"] = some "a\xe9" ∧
    ConcreteStrategyB.DoAlforithm 32767 false ["a", "\xe9"] = some "\xe9a" :=
  ⟨(C13_StrategyB_reverses_StrategyA 32767 true ["a", "e", "c", "b", "d"] (by decide)).1.trans
      (by decide),
   (C13_StrategyB_reverses_StrategyA 32767 false ["b", "d", "a", "c"] (by decide)).1.trans
      (by decide),
   (C13_StrategyB_reverses_StrategyA 32767 true ["a", "\xe9"] (by decide)).1.trans
      (by decide),
   (C13_StrategyB_reverses_StrategyA 32767 false ["a", "\xe9"] (by decide)).1.trans
      (by decide)⟩

/-- C14: `ConcreteStrategyA` sorts the data.  The result holds the characters
of the concatenation of the strings of `data` (in list order), each as often
as there, in non-decreasing order of `char`, whether plain `char` is signed or
not; its length is the sum of the lengths of the strings; for characters that
fit a `char` it is the only such arrangement, whatever algorithm `std::sort`
runs; `["a","e","c","b","d"]` gives `"abcde"`, also through
`Context::DoSomeBusinessLogic`, and the empty list gives the empty string.  A
character from code 128 on sorts before the letters where `char` is signed and
after them where it is not. -/
theorem C14_StrategyA_sorts (char_signed : Bool) (data : List String) :
    (ConcreteStrategyA.DoAlforithm char_signed data).data.Perm
      (data.map String.data).flatten ∧
    (data.map String.data).flatten = (String.join data).data ∧
    List.Sorted (fun a b => char_value char_signed a ≤ char_value char_signed b)
      (ConcreteStrategyA.DoAlforithm char_signed data).data ∧
    (ConcreteStrategyA.DoAlforithm char_signed data).length = (data.map String.length).sum ∧
    (∀ l : List Char, (∀ c ∈ l, c.toNat < 256) → l.Perm (data.map String.data).flatten →
      List.Sorted (fun a b => char_value char_signed a ≤ char_value char_signed b) l →
      l = (ConcreteStrategyA.DoAlforithm char_signed data).data) ∧
    ConcreteStrategyA.DoAlforithm char_signed ["a", "e", "c", "b", "d"] = "abcde" ∧
    ConcreteStrategyA.DoAlforithm char_signed [] = "" ∧
    (∀ INT_MAX, Context.DoSomeBusinessLogic INT_MAX char_signed
        ⟨some StrategyKind.ConcreteStrategyA⟩ =
      some "Context: Sorting data using the strategy (not sure how it'll do it)\nabcde\n") ∧
    ConcreteStrategyA.DoAlforithm true ["a", "\xe9"] = "\xe9a" ∧
    ConcreteStrategyA.DoAlforithm false ["a", "\xe9"] = "a\xe9" := by
  have hperm : (ConcreteStrategyA.DoAlforithm char_signed data).data.Perm
      (data.map String.data).flatten := by
    rw [← data_for_each]
    exact List.perm_insertionSort (char_le char_signed) (for_each data).data
  have hsorted : List.Sorted (char_le char_signed)
      (ConcreteStrategyA.DoAlforithm char_signed data).data :=
    sorted_std_sort char_signed (for_each data)
  refine ⟨hperm, (String.data_join data).symm, hsorted, ?_, ?_, ?_, ?_, ?_,
    by decide, by decide⟩
  · rw [length_eq_data]
    show (std_sort char_signed (for_each data)).data.length = _
    rw [length_std_sort, data_for_each, List.length_flatten, List.map_map]
    congr 1
  · intro l hbytes hl hs
    refine List.Perm.eq_of_sorted ?_ hs hsorted (hl.trans hperm.symm)
    intro a b hal hbA hab hba
    have hbl : b ∈ l := (hl.trans hperm.symm).symm.subset hbA
    exact char_le_antisymm char_signed a b (hbytes a hal) (hbytes b hbl) hab hba
  · cases char_signed <;> decide
  · cases char_signed <;> decide
  · intro INT_MAX
    cases char_signed <;> rfl

end StrategyPattern

namespace AdapterPattern

/-- C15: `Adapter::Request` returns the prefix "Adapter: (TRANSLATED) " followed
by the characters of `Adaptee::SpecificRequest` in reverse order, and reversing
that suffix gives `SpecificRequest` back; for the fixed text of the adaptee the
result is "Adapter: (TRANSLATED) Special behavior fo hte Adaptee.", while
`Target::Request` returns "Target: The default target's behavior.". -/
theorem C15_Adapter_Request_reverses :
    (∃ suffix : String, Adapter.Request = "Adapter: (TRANSLATED) " ++ suffix ∧
      suffix.data = Adaptee.SpecificRequest.data.reverse ∧
      std_reverse suffix = Adaptee.SpecificRequest) ∧
    Adapter.Request = "Adapter: (TRANSLATED) Special behavior fo hte Adaptee." ∧
    Target.Request = "Target: The default target's behavior." ∧
    ClientCode TargetKind.Adapter =
      "Adapter: (TRANSLATED) Special behavior fo hte Adaptee." ∧
    ClientCode TargetKind.Target = "Target: The default target's behavior." := by
  refine ⟨⟨std_reverse Adaptee.SpecificRequest, rfl, rfl, ?_⟩, by decide, rfl, by decide, rfl⟩
  apply String.ext
  show (Adaptee.SpecificRequest.data.reverse).reverse = Adaptee.SpecificRequest.data
  exact List.reverse_reverse _

end AdapterPattern

namespace MediatorPattern

theorem Notify_other (w : World) (fuel m sender : Nat) (event : String)
    (med : ConcreteMediator) (hm : w.mediators[m]? = some med)
    (ha : event ≠ "A") (hd : event ≠ "D") :
    Mediator.Notify w (fuel + 1) m sender event = some ([], "") := by
  simp only [Mediator.Notify, hm, ConcreteMediator.Notify, if_neg ha, if_neg hd]
  rfl

/-- C16: with `c1` and `c2` wired to one mediator as in `ClientCode`, every
component operation returns (two nested notifications are enough) and performs
these operations in order: `DoA` performs A, C; `DoD` performs D, B, C; `DoB`
performs B; `DoC` performs C.  `Notify` triggers C on "A", B then C on "D", and
nothing on any other event, "B" and "C" included. -/
theorem C16_notification_cascade :
    ∃ w c1 c2 m, ClientCode.wire = some (w, c1, c2, m) ∧
      (∀ fuel, DoA w (fuel + 2) c1 = some ([Op.A, Op.C],
        "Component 1 does A.\nMediator react on A and triggers following operations:\nComponent 2 does C.\n")) ∧
      (∀ fuel, DoD w (fuel + 2) c2 = some ([Op.D, Op.B, Op.C],
        "Component 2 does D.\nMediator react on D and triggers following operations:\nComponent 1 does B.\nComponent 2 does C.\n")) ∧
      (∀ fuel, DoB w (fuel + 1) c1 = some ([Op.B], "Component 1 does B.\n")) ∧
      (∀ fuel, DoC w (fuel + 1) c2 = some ([Op.C], "Component 2 does C.\n")) ∧
      (∀ fuel sender, Mediator.Notify w (fuel + 2) m sender "A" = some ([Op.C],
        "Mediator react on A and triggers following operations:\nComponent 2 does C.\n")) ∧
      (∀ fuel sender, Mediator.Notify w (fuel + 2) m sender "D" = some ([Op.B, Op.C],
        "Mediator react on D and triggers following operations:\nComponent 1 does B.\nComponent 2 does C.\n")) ∧
      (∀ fuel sender event, event ≠ "A" → event ≠ "D" →
        Mediator.Notify w (fuel + 1) m sender event = some ([], "")) ∧
      (∀ fuel sender, Mediator.Notify w (fuel + 1) m sender "B" = some ([], "")) ∧
      (∀ fuel sender, Mediator.Notify w (fuel + 1) m sender "C" = some ([], "")) := by
  refine ⟨_, 0, 1, 0, rfl, fun _ => rfl, fun _ => rfl, fun _ => rfl, fun _ => rfl,
    fun _ _ => rfl, fun _ _ => rfl, ?_, fun _ _ => rfl, fun _ _ => rfl⟩
  intro fuel sender event ha hd
  exact Notify_other _ fuel 0 sender event ⟨0, 1⟩ rfl ha hd

theorem C16_notification_cascade_witness :
    ∃ w c1 c2 m, ClientCode.wire = some (w, c1, c2, m) ∧
      DoA w 2 c1 = some ([Op.A, Op.C],
        "Component 1 does A.\nMediator react on A and triggers following operations:\nComponent 2 does C.\n") ∧
      Mediator.Notify w 1 m c1 "Z" = some ([], "") := by
  obtain ⟨w, c1, c2, m, hw, hA, _, _, _, _, _, hother, _, _⟩ := C16_notification_cascade
  exact ⟨w, c1, c2, m, hw, hA 0, hother 0 c1 "Z" (by decide) (by decide)⟩

end MediatorPattern
